import Mathlib

/-!
# SEFS — verification of the semantic file system core

Shallow embedding of the SEFS backend (`src/backend`): the in-memory maps and
persistent store of `main.py`, the move bookkeeping of `file_ops.py`, the
event handling of `monitor.py`, the SQLite-backed store of `storage.py`, and
the chunking of `rag_engine.py`.

Modelling conventions:
* A filesystem path is the list of its components below `MONITOR_ROOT`
  (components contain no separator, so component lists and path strings are in
  bijection).  `os.path.basename` is the last component; the basename of
  `MONITOR_ROOT` itself is the constant `rootBase`.
* Python dictionaries are association lists with unique keys; insertion keeps
  the position of an existing key (as CPython dictionaries do) and appends new
  keys at the end.
* Modification times are integers (seconds since the epoch, exact
  arithmetic); Python's `abs(a - b) > 1.0` is `1 < (a - b).natAbs`.
* Embeddings are opaque integer vectors; the sentence-embedding model, the
  text extractor and the clusterer are out-of-scope collaborators and enter as
  function parameters.
* Side effects on the store and the chunk index are recorded in an effect
  trace so that frame conditions ("no store write", "no safe_move call") are
  statements about the trace.
-/

namespace SEFS

/-- A path, as its list of components below `MONITOR_ROOT`. -/
abbrev FPath := List String

/-- An embedding vector (opaque to the system; only compared for equality). -/
abbrev Emb := List Int

/-! ## Association lists (the shape of Python dictionaries) -/

/-- Dictionary lookup: first entry with the given key. -/
def lookupP [DecidableEq κ] (k : κ) : List (κ × α) → Option α
  | [] => none
  | (k', v) :: t => if k' = k then some v else lookupP k t

/-- Dictionary write `d[k] = v`: replace in place if present, else append. -/
def setP [DecidableEq κ] (k : κ) (v : α) : List (κ × α) → List (κ × α)
  | [] => [(k, v)]
  | (k', v') :: t => if k' = k then (k, v) :: t else (k', v') :: setP k v t

/-- Dictionary deletion `d.pop(k, None)` / SQL `DELETE WHERE key = k`. -/
def eraseP [DecidableEq κ] (k : κ) (l : List (κ × α)) : List (κ × α) :=
  l.filter (fun kv => kv.1 ≠ k)

/-- The list of keys of a dictionary. -/
def keysP (l : List (κ × α)) : List κ := l.map (·.1)


/-! ## Paths

`MONITOR_ROOT = F:\vibecode\sefs_root` (config.py).  A managed path is its
list of components below the root; `rootBase` is the basename of the root
itself, the value `os.path.basename(os.path.dirname(p))` takes for a file
lying directly in the root. -/

/-- Basename of `MONITOR_ROOT` (`sefs_root` in config.py). -/
def rootBase : String := "sefs_root"

/-- `os.path.basename`: the last path component. -/
def basenameOf : FPath → String
  | [] => rootBase
  | [x] => x
  | _ :: t => basenameOf t

/-- `os.path.basename(os.path.dirname(p))`: the name of the containing
directory, `rootBase` for a file directly under the root. -/
def parentNameOf (p : FPath) : String := basenameOf p.dropLast

/-- Cluster folder name `f"{topic_label}_{cluster_id}"` (main.py line 150). -/
def folderNameOf (clusterId : Int) (topicLabel : String) : String :=
  topicLabel ++ "_" ++ toString clusterId

/-! ## String helpers

Structurally recursive models of the Python string methods used by the
backend (`str.startswith`, `str.endswith`, `str.strip`, `str.split`). -/

/-- Python `s.startswith(pre)`. -/
def pyStartsWith (s pre : String) : Bool := pre.data.isPrefixOf s.data

/-- Python `s.endswith(suf)`. -/
def pyEndsWith (s suf : String) : Bool := suf.data.reverse.isPrefixOf s.data.reverse

/-- Python `s.strip()`: leading and trailing whitespace removed. -/
def pyStrip (s : String) : String :=
  String.mk (((s.data.dropWhile Char.isWhitespace).reverse.dropWhile
    Char.isWhitespace).reverse)

/-- Accumulator loop for `str.split()`. -/
def wordsAux : List Char → List Char → List String
  | [], acc => if acc.isEmpty then [] else [String.mk acc.reverse]
  | c :: rest, acc =>
    if c.isWhitespace then
      if acc.isEmpty then wordsAux rest [] else String.mk acc.reverse :: wordsAux rest []
    else wordsAux rest (c :: acc)

/-- Python `text.split()`: split on whitespace runs, no empty words. -/
def pyWords (t : String) : List String := wordsAux t.data []

/-! ## Store rows and the engine state -/

/-- One row of the `file_embeddings` table (storage.py `_init_db`). -/
structure StoreRow where
  embedding : Emb
  content : String
  lastModified : ℤ
  clusterId : Int
  topicLabel : String
  deriving DecidableEq, Repr

/-- The mutable state of the engine: the three in-memory maps of `main.py`,
the SQLite store, the set of managed files on disk with their mtimes, and
`FileManager.pending_moves`. -/
structure EngineState where
  fileEmbeddings : List (FPath × Emb)
  fileContents : List (FPath × String)
  fileClusters : List (FPath × (Int × String))
  store : List (FPath × StoreRow)
  disk : List (FPath × ℤ)
  pending : List FPath
  deriving DecidableEq, Repr

/-- Externally visible side effects, recorded in program order. -/
inductive Effect where
  /-- `FileManager.safe_move(src, dst)` was called. -/
  | safeMoveCall (src dst : FPath)
  /-- `storage.save_embedding(path, …)` was called. -/
  | storeSave (p : FPath)
  /-- `storage.update_cluster(path, …)` was called. -/
  | storeUpdate (p : FPath)
  /-- `storage.delete_embedding(path)` was called. -/
  | storeDelete (p : FPath)
  /-- `storage.move_embedding(src, dst)` was called. -/
  | storeMove (src dst : FPath)
  /-- `rag_engine.add_document(path, …)` was called (chunk upsert). -/
  | chunkAdd (p : FPath)
  /-- `rag_engine.remove_document(path)` was called. -/
  | chunkRemove (p : FPath)
  /-- `rag_engine.update_cluster_info(path, …)` was called. -/
  | chunkUpdate (p : FPath)
  /-- `recluster_and_organize()` was invoked. -/
  | reclusterPass
  deriving DecidableEq, Repr

/-- Number of `safe_move` calls in a trace. -/
def countSafeMoves (fx : List Effect) : Nat :=
  (fx.filter (fun e => match e with | .safeMoveCall _ _ => true | _ => false)).length

/-- Number of `recluster_and_organize` invocations in a trace. -/
def countReclusterPasses (fx : List Effect) : Nat :=
  (fx.filter (fun e => match e with | .reclusterPass => true | _ => false)).length

/-! ## Store operations (storage.py) -/

/-- `EmbeddingStorage.save_embedding` (storage.py 41–57): SQL
`INSERT OR REPLACE`, an upsert keyed by the filepath. -/
def save_embedding (store : List (FPath × StoreRow)) (p : FPath) (e : Emb)
    (content : String) (lastModified : ℤ) (clusterId : Int := -1)
    (topicLabel : String := "") : List (FPath × StoreRow) :=
  setP p ⟨e, content, lastModified, clusterId, topicLabel⟩ store

/-- `EmbeddingStorage.get_embedding` (storage.py 59–88): `None` when the file
is absent on disk, the row is missing, or the on-disk mtime differs from the
stored one by more than one second; otherwise the stored embedding, content
and stored mtime. -/
def get_embedding (disk : List (FPath × ℤ)) (store : List (FPath × StoreRow))
    (p : FPath) : Option (Emb × String × ℤ) :=
  match lookupP p disk with
  | none => none
  | some currentMtime =>
    match lookupP p store with
    | none => none
    | some row =>
      if 1 < (currentMtime - row.lastModified).natAbs then none
      else some (row.embedding, row.content, row.lastModified)

/-- `EmbeddingStorage.update_cluster` (storage.py 116–128): SQL `UPDATE …
WHERE filepath = ?`; rows that do not match are untouched and nothing is
inserted. -/
def update_cluster (store : List (FPath × StoreRow)) (p : FPath)
    (clusterId : Int) (topicLabel : String) : List (FPath × StoreRow) :=
  store.map (fun kv =>
    if kv.1 = p then (kv.1, { kv.2 with clusterId := clusterId, topicLabel := topicLabel })
    else kv)

/-- `EmbeddingStorage.delete_embedding` (storage.py 130–138). -/
def delete_embedding (store : List (FPath × StoreRow)) (p : FPath) :
    List (FPath × StoreRow) :=
  eraseP p store

/-- `EmbeddingStorage.move_embedding` (storage.py 140–152): SQL `UPDATE … SET
filepath = dest WHERE filepath = src`. -/
def move_embedding (store : List (FPath × StoreRow)) (src dest : FPath) :
    List (FPath × StoreRow) :=
  store.map (fun kv => if kv.1 = src then (dest, kv.2) else kv)

/-! ## FileManager (file_ops.py) -/

/-- `FileManager.safe_move` (file_ops.py 13–56), effect on disk and the
pending set.  `src == dst` is a no-op; a successful `shutil.move` removes the
source file and (over)writes the destination, leaving `src` and `dst` in
`pending_moves` (they are discarded two seconds later by the settle thread);
if the rename raises (source missing), the `except` branch discards both
entries again, so the state is unchanged. -/
def safe_move (s : EngineState) (src dst : FPath) : EngineState :=
  if src = dst then s
  else
    match lookupP src s.disk with
    | some m =>
        { s with disk := setP dst m (eraseP src s.disk),
                 pending := src :: dst :: s.pending }
    | none => s

/-- `FileManager.is_system_operation` (file_ops.py 58–64): membership of the
path in `pending_moves`. -/
def is_system_operation (pending : List FPath) (p : FPath) : Bool :=
  decide (p ∈ pending)

/-- The individual steps `safe_move` performs, for the timing claim. -/
inductive MoveAction where
  /-- `os.makedirs(os.path.dirname(dst))`. -/
  | makeDirs (d : FPath)
  /-- `self.pending_moves.add(p)`. -/
  | pendingInsert (p : FPath)
  /-- `shutil.move(src, dst)`. -/
  | renameCall (src dst : FPath)
  /-- `self.pending_moves.discard(p)` in the settle thread. -/
  | pendingDiscard (p : FPath)
  deriving DecidableEq, Repr

/-- The settle delay: `time.sleep(2)` in `clear_pending` (file_ops.py 48). -/
def T_settle : ℚ := 2

/-- Timed trace of a successful `safe_move` (file_ops.py 13–51).  The actions
appear in program order: create the destination directory, insert `dst` then
`src` into `pending_moves`, perform the rename, and — on the settle thread,
after `time.sleep(T_settle)` — discard the two entries.  `t0` is the start
time and `g1 g2 g3 g4` are arbitrary nonnegative scheduling delays between
consecutive steps; the gap between the rename and the discards additionally
contains the full `T_settle` sleep. -/
def safe_move_timeline (src dst : FPath) (t0 g1 g2 g3 g4 : ℚ) :
    List (ℚ × MoveAction) :=
  if src = dst then []
  else
    [(t0, .makeDirs dst.dropLast),
     (t0 + g1, .pendingInsert dst),
     (t0 + g1, .pendingInsert src),
     (t0 + g1 + g2, .renameCall src dst),
     (t0 + g1 + g2 + g3 + T_settle, .pendingDiscard dst),
     (t0 + g1 + g2 + g3 + T_settle + g4, .pendingDiscard src)]

/-! ## Monitor (monitor.py) -/

/-- A watchdog filesystem event as seen by `SEFSHandler.on_any_event`. -/
structure FSEvent where
  isDirectory : Bool
  /-- `'created' | 'modified' | 'moved' | 'deleted'`. -/
  eventType : String
  srcPath : FPath
  /-- Present exactly on `moved` events. -/
  destPath : Option FPath
  deriving DecidableEq, Repr

/-- `'.sefs_metadata' in path` (substring test on the path string; with
separator-free components this is membership of the component). -/
def isMetadataPath (p : FPath) : Bool := p.contains ".sefs_metadata"

/-- `path.endswith(('.db-journal', '.db-wal'))`. -/
def isDbSidecar (p : FPath) : Bool :=
  pyEndsWith (basenameOf p) ".db-journal" || pyEndsWith (basenameOf p) ".db-wal"

/-- `SEFSHandler.on_any_event` (monitor.py 16–48): the effect on the event
queue.  Directory events, metadata/sidecar paths and self-moves (source or
destination in `pending_moves`) are dropped; everything else is appended. -/
def on_any_event (pending : List FPath) (queue : List FSEvent) (e : FSEvent) :
    List FSEvent :=
  if e.isDirectory then queue
  else if isMetadataPath e.srcPath || isDbSidecar e.srcPath then queue
  else if (match e.destPath with
           | some d => isMetadataPath d || isDbSidecar d
           | none => false) then queue
  else if is_system_operation pending e.srcPath then queue
  else if (match e.destPath with
           | some d => is_system_operation pending d
           | none => false) then queue
  else queue ++ [e]

/-- The deduplication dictionary built by `SEFSHandler._process_queue`
(monitor.py 57–61): drain the queue into `unique_events`, keyed by source
path, keeping the last event per path (dictionary order is first-appearance
order, as in CPython). -/
def dedup_events (queue : List FSEvent) : List (FPath × FSEvent) :=
  queue.foldl (fun acc e => setP e.srcPath e acc) []

/-- `SEFSHandler._process_queue` (monitor.py 50–67): the list of dispatcher
invocations it performs, in order.  Each element is the argument of ONE
`self.callback(event)` call — the loop calls the callback once per unique
source path, each time with a single event. -/
def process_queue_calls (queue : List FSEvent) : List FSEvent :=
  (dedup_events queue).map (·.2)

/-! ## RAG chunking (rag_engine.py, config.py) -/

/-- `CHUNK_SIZE = 400` (config.py 27). -/
def CHUNK_SIZE : Nat := 400

/-- `CHUNK_OVERLAP = 50` (config.py 28). -/
def CHUNK_OVERLAP : Nat := 50

/-- Fuel-driven loop for `range`; `stop - start` is always enough fuel. -/
def pyRangeAux (step : Nat) : Nat → Nat → Nat → List Nat
  | 0, _, _ => []
  | fuel + 1, start, stop =>
    if 0 < step ∧ start < stop then start :: pyRangeAux step fuel (start + step) stop
    else []

/-- Python `range(start, stop, step)` for a positive step. -/
def pyRange (start stop step : Nat) : List Nat :=
  pyRangeAux step (stop - start) start stop

/-- The word windows `words[i : i + CHUNK_SIZE]` for
`i in range(0, len(words), CHUNK_SIZE - CHUNK_OVERLAP)` — the windows
`RAGEngine.chunk_text` (rag_engine.py 33–54) produces before the
minimum-length filter. -/
def chunkWindows (ws : List String) : List (List String) :=
  (pyRange 0 ws.length (CHUNK_SIZE - CHUNK_OVERLAP)).map
    (fun i => (ws.drop i).take CHUNK_SIZE)

/-- `RAGEngine.chunk_text` (rag_engine.py 33–54): join each window with
spaces, skip chunks whose stripped text is shorter than 50 characters, keep
`chunk_index = len(chunks)` at append time. -/
def chunk_text (text : String) : List (String × Nat) :=
  (chunkWindows (pyWords text)).foldl
    (fun acc w =>
      let ct := " ".intercalate w
      if (pyStrip ct).length < 50 then acc else acc ++ [(ct, acc.length)])
    []

/-! ## Ingestor (`main.py`)

The text extractor and embedding model are external collaborators
(`analyzer.extract_text`, `analyzer.generate_embedding`); they enter as pure
function parameters `ex` and `em`.  The clusterer is abstracted by a function
`assign` from an embedding value to its `(cluster_id, topic_label)`
assignment: for one fixed embedding multiset DBSCAN-plus-labelling is a
deterministic per-point function of the point, which is the regime the claims
quantify over. -/

/-- `process_file` (main.py 50–94).  Returns the Python result, the new state
and the effect trace.  Dotfiles and non-`.txt`/`.pdf` files are skipped; a
fresh cached row populates the two maps and returns; otherwise the text is
extracted, short texts (`len(text.strip()) <= 10`) are dropped, and a long
text is embedded, written to the maps, saved to the store with the current
mtime and registered with the chunk index (`add_document` first removes the
old chunks).  If `os.path.getmtime` raises because the file vanished, the
attempt fails after the maps were already written, every retry behaves
identically, and the function returns `False`. -/
def process_file (ex : FPath → Option String) (em : String → Emb)
    (s : EngineState) (p : FPath) : Bool × EngineState × List Effect :=
  if pyStartsWith (basenameOf p) "." then (false, s, [])
  else if !(pyEndsWith (basenameOf p) ".txt" || pyEndsWith (basenameOf p) ".pdf") then
    (false, s, [])
  else
    match get_embedding s.disk s.store p with
    | some (e, c, _) =>
        (true,
         { s with fileEmbeddings := setP p e s.fileEmbeddings,
                  fileContents := setP p c s.fileContents },
         [])
    | none =>
      match ex p with
      | none => (false, s, [])
      | some text =>
        if text ≠ "" ∧ 10 < (pyStrip text).length then
          let e := em text
          let s1 := { s with fileEmbeddings := setP p e s.fileEmbeddings,
                             fileContents := setP p text s.fileContents }
          match lookupP p s.disk with
          | none => (false, s1, [])
          | some lastModified =>
            let s2 := { s1 with store := save_embedding s1.store p e text lastModified }
            (true, s2, [.storeSave p, .chunkRemove p, .chunkAdd p])
        else (false, s, [])

/-! ## Organizer (`recluster_and_organize`, main.py 119–192) -/

/-- One iteration of the organize loop (main.py 147–181) for the entry
`(filepath, (cluster_id, topic_label))` of `new_clusters`. -/
def organize_one (s : EngineState) (p : FPath) (clusterId : Int)
    (topicLabel : String) : EngineState × List Effect :=
  if clusterId = -1 then (s, [])
  else
    let folderName := folderNameOf clusterId topicLabel
    let filename := basenameOf p
    if parentNameOf p = folderName then
      ({ s with fileClusters := setP p (clusterId, topicLabel) s.fileClusters,
                store := update_cluster s.store p clusterId topicLabel },
       [.storeUpdate p])
    else
      let target : FPath := [folderName, filename]
      if p ≠ target then
        let emb := lookupP p s.fileEmbeddings
        let content := lookupP p s.fileContents
        let embeddings1 :=
          match emb with
          | some v => setP target v (eraseP p s.fileEmbeddings)
          | none => eraseP p s.fileEmbeddings
        let contents1 :=
          match content with
          | some c => setP target c (eraseP p s.fileContents)
          | none => eraseP p s.fileContents
        let clusters1 := eraseP p (setP target (clusterId, topicLabel) s.fileClusters)
        let s1 := { s with fileEmbeddings := embeddings1,
                           fileContents := contents1,
                           fileClusters := clusters1,
                           store := update_cluster s.store target clusterId topicLabel }
        (safe_move s1 p target,
         [.storeUpdate target, .chunkUpdate target, .safeMoveCall p target])
      else (s, [])

/-- The organize loop over the `new_clusters` dictionary, in order. -/
def organize_list (s : EngineState) :
    List (FPath × (Int × String)) → EngineState × List Effect
  | [] => (s, [])
  | kv :: rest =>
    let r1 := organize_one s kv.1 kv.2.1 kv.2.2
    let r2 := organize_list r1.1 rest
    (r2.1, r1.2 ++ r2.2)

/-- `recluster_and_organize` (main.py 119–192) with the clusterer abstracted
by `assign`.  An empty embedding map clears `file_clusters` and returns;
otherwise entries whose file no longer exists are pruned from all three maps,
the clusterer is run, and the organize loop relocates every non-noise file
whose containing folder is not `"{label}_{cid}"`.  (The trailing empty-folder
sweep touches only directories and is outside the file-level disk model.) -/
def recluster_and_organize (assign : Emb → Int × String) (s : EngineState) :
    EngineState × List Effect :=
  if s.fileEmbeddings.isEmpty then ({ s with fileClusters := [] }, [])
  else
    let existing := s.fileEmbeddings.filter (fun kv => (lookupP kv.1 s.disk).isSome)
    let contents1 := s.fileContents.filter (fun kv => (lookupP kv.1 existing).isSome)
    let clusters1 := s.fileClusters.filter (fun kv => (lookupP kv.1 existing).isSome)
    let s1 := { s with fileEmbeddings := existing, fileContents := contents1,
                       fileClusters := clusters1 }
    if existing.isEmpty then (s1, [])
    else
      let newClusters := s1.fileEmbeddings.map (fun kv => (kv.1, assign kv.2))
      organize_list s1 newClusters

/-- One step of the submission loop of `process_files_batch`: run the
per-file pipeline, accumulate its effects and count successes. -/
def batch_step (ex : FPath → Option String) (em : String → Emb)
    (acc : EngineState × List Effect × Nat) (p : FPath) :
    EngineState × List Effect × Nat :=
  let r := process_file ex em acc.1 p
  (r.2.1, acc.2.1 ++ r.2.2, acc.2.2 + (if r.1 then 1 else 0))

/-- Drain the whole batch: final state, effect trace, number of files that
succeeded (`completed` in main.py 104–109). -/
def batch_fold (ex : FPath → Option String) (em : String → Emb)
    (s : EngineState) (filepaths : List FPath) :
    EngineState × List Effect × Nat :=
  filepaths.foldl (batch_step ex em) (s, [], 0)

/-- `process_files_batch` (main.py 96–117).  The worker pool is drained
completely; we model the per-file pipeline sequentially in submission order.
After the batch, `recluster_and_organize` is triggered only when at least one
file succeeded (`if completed > 0`). -/
def process_files_batch (ex : FPath → Option String) (em : String → Emb)
    (assign : Emb → Int × String) (s : EngineState) (filepaths : List FPath) :
    EngineState × List Effect :=
  let step := batch_fold ex em s filepaths
  if 0 < step.2.2 then
    let r := recluster_and_organize assign step.1
    (r.1, step.2.1 ++ [.reclusterPass] ++ r.2)
  else (step.1, step.2.1)

/-! ## Event dispatcher (`event_callback`, main.py 226–290) -/

/-- The accumulator of the event-scan loop: `files_to_process`,
`files_to_delete`, the state (moved events mutate it immediately) and the
effect trace. -/
structure ScanAcc where
  toProcess : List FPath
  toDelete : List FPath
  state : EngineState
  fx : List Effect

/-- One iteration of the scan over the event batch (main.py 236–267).
The membership tests `src not in files_to_process` run against the lists as
built so far, and `moved` events are applied to the maps and the store
immediately during the scan. -/
def scan_event_step (acc : ScanAcc) (e : FSEvent) : ScanAcc :=
  if e.isDirectory then acc
  else
    let src := e.srcPath
    if e.eventType = "created" ∨ e.eventType = "modified" then
      if src ∉ acc.toProcess ∧ src ∉ acc.toDelete then
        { acc with toProcess := acc.toProcess ++ [src] }
      else acc
    else if e.eventType = "moved" then
      let dest := e.destPath.getD []
      let s := acc.state
      if (lookupP src s.fileEmbeddings).isSome then
        let s1 :=
          { s with
            fileEmbeddings :=
              match lookupP src s.fileEmbeddings with
              | some v => setP dest v (eraseP src s.fileEmbeddings)
              | none => s.fileEmbeddings,
            fileContents :=
              match lookupP src s.fileContents with
              | some c => setP dest c (eraseP src s.fileContents)
              | none => s.fileContents,
            fileClusters :=
              match lookupP src s.fileClusters with
              | some cl => setP dest cl (eraseP src s.fileClusters)
              | none => s.fileClusters,
            store := move_embedding s.store src dest }
        { acc with state := s1,
                   fx := acc.fx ++ [.storeMove src dest, .chunkRemove src, .chunkAdd dest] }
      else { acc with toProcess := acc.toProcess ++ [dest] }
    else if e.eventType = "deleted" then
      if src ∉ acc.toProcess then { acc with toDelete := acc.toDelete ++ [src] }
      else acc
    else acc

/-- The full scan over the event batch. -/
def scan_events (s : EngineState) (events : List FSEvent) : ScanAcc :=
  events.foldl scan_event_step ⟨[], [], s, []⟩

/-- The deletion loop at the end of `event_callback` (main.py 277–290): each
deleted path is removed from the three maps and the store, its chunks are
removed, and `recluster_and_organize` runs once per deletion. -/
def delete_one (assign : Emb → Int × String) (acc : EngineState × List Effect)
    (d : FPath) : EngineState × List Effect :=
  let s := acc.1
  let s1 := { s with fileEmbeddings := eraseP d s.fileEmbeddings,
                     fileContents := eraseP d s.fileContents,
                     fileClusters := eraseP d s.fileClusters,
                     store := delete_embedding s.store d }
  let r := recluster_and_organize assign s1
  (r.1, acc.2 ++ [.storeDelete d, .chunkRemove d, .reclusterPass] ++ r.2)

/-- `event_callback` (main.py 226–290): scan the batch, process the collected
files concurrently via `process_files_batch`, then run the deletion loop. -/
def event_callback (ex : FPath → Option String) (em : String → Emb)
    (assign : Emb → Int × String) (s : EngineState) (events : List FSEvent) :
    EngineState × List Effect :=
  let scanned := scan_events s events
  let r2 :=
    if scanned.toProcess ≠ [] then
      process_files_batch ex em assign scanned.state scanned.toProcess
    else (scanned.state, [])
  let deleted := scanned.toDelete.foldl (delete_one assign) (r2.1, [])
  (deleted.1, scanned.fx ++ r2.2 ++ deleted.2)

/-! ## Specification-side notions and concrete instances -/

/-- The number of non-whitespace characters of a text (the quantity the
specification's drop criterion speaks about). -/
def nonWhitespaceCount (t : String) : Nat :=
  (t.data.filter (fun ch => !ch.isWhitespace)).length

/-- A text of 351 words, which the claim's formula
`max(1, ceil((N − O) / (W − O)))` says should yield one window. -/
def textC6 : String := " ".intercalate (List.replicate 351 "w")

/-- The last event of a list whose source path is `s` ("the last event per
source path" of the specification). -/
def lastEventFor : List FSEvent → FPath → Option FSEvent
  | [], _ => none
  | e :: rest, s =>
    match lastEventFor rest s with
    | some e' => some e'
    | none => if e.srcPath = s then some e else none

/-- Two dictionaries have the same key set. -/
def SameKeys (l1 : List (FPath × α)) (l2 : List (FPath × β)) : Prop :=
  ∀ k, (lookupP k l1).isSome ↔ (lookupP k l2).isSome

/-- The keys of the first dictionary are keys of the second. -/
def SubKeys (l1 : List (FPath × α)) (l2 : List (FPath × β)) : Prop :=
  ∀ k, (lookupP k l1).isSome → (lookupP k l2).isSome

/-- The invariant the three in-memory maps preserve:
`keys(embeddings) = keys(contents)`, `keys(clusters) ⊆ keys(embeddings)`, and
well-formedness (a dictionary has distinct keys). -/
def MapsCoherentL (emb : List (FPath × Emb)) (con : List (FPath × String))
    (clu : List (FPath × (Int × String))) : Prop :=
  SameKeys emb con ∧ SubKeys clu emb ∧ (keysP emb).Nodup

/-- Key-set coherence of an engine state. -/
def MapsCoherent (s : EngineState) : Prop :=
  MapsCoherentL s.fileEmbeddings s.fileContents s.fileClusters

/-- No two tracked files share a basename.  (`recluster_and_organize` always
relocates a file to `root/folder/basename`, so two files with equal basenames
and colliding assignments overwrite each other — the hypothesis under which
idempotence holds.) -/
def DistinctBasenames (l : List (FPath × Emb)) : Prop :=
  (l.map (fun kv => basenameOf kv.1)).Nodup

/-- The post-pass invariant: coherent maps, distinct basenames, every tracked
file on disk, and every non-noise file already sitting in its cluster folder
with its assignment recorded in `file_clusters`. -/
def Organized (assign : Emb → Int × String) (s : EngineState) : Prop :=
  MapsCoherent s ∧ DistinctBasenames s.fileEmbeddings ∧
  (∀ kv ∈ s.fileEmbeddings, (lookupP kv.1 s.disk).isSome) ∧
  (∀ kv ∈ s.fileEmbeddings, (assign kv.2).1 = -1 ∨
    (parentNameOf kv.1 = folderNameOf (assign kv.2).1 (assign kv.2).2 ∧
     lookupP kv.1 s.fileClusters = some (assign kv.2)))

/-- The concrete pre-batch state of the idempotence counterexample: nothing
tracked yet, two files on disk sharing the basename `f.txt`. -/
def stateC1 : EngineState :=
  { fileEmbeddings := [], fileContents := [], fileClusters := [], store := [],
    disk := [(["x", "f.txt"], 0), (["A_0", "f.txt"], 0)], pending := [] }

/-- Text extractor of the idempotence counterexample. -/
def exC1 : FPath → Option String :=
  fun p => if p = ["x", "f.txt"] then some "xxxxxxxxxxxx" else some "yyyyyyyyyyyy"

/-- Embedder of the idempotence counterexample. -/
def emC1 : String → Emb :=
  fun t => if t = "xxxxxxxxxxxx" then [2] else [1]

/-- Clusterer of the idempotence counterexample: the two embeddings land in
different clusters. -/
def assignC1 : Emb → Int × String :=
  fun v => if v = [2] then (0, "A") else (1, "B")

/-- A one-file state, already organized, instantiating the idempotence
hypotheses. -/
def stateW1 : EngineState :=
  { fileEmbeddings := [(["A_0", "f.txt"], [5])],
    fileContents := [(["A_0", "f.txt"], "hello")], fileClusters := [],
    store := [], disk := [(["A_0", "f.txt"], 0)], pending := [] }

/-! ## Path and association-list lemmas -/

@[simp] theorem basenameOf_pair (a b : String) : basenameOf [a, b] = b := rfl

@[simp] theorem parentNameOf_pair (a b : String) : parentNameOf [a, b] = a := rfl

@[simp] theorem lookupP_nil [DecidableEq κ] (k : κ) :
    lookupP k ([] : List (κ × α)) = none := rfl

theorem lookupP_cons [DecidableEq κ] (k k' : κ) (v : α) (t : List (κ × α)) :
    lookupP k ((k', v) :: t) = if k' = k then some v else lookupP k t := rfl

@[simp] theorem lookupP_setP_self [DecidableEq κ] (k : κ) (v : α) (l : List (κ × α)) :
    lookupP k (setP k v l) = some v := by
  induction l with
  | nil => simp [setP, lookupP]
  | cons hd t ih =>
    obtain ⟨k', v'⟩ := hd
    by_cases h : k' = k
    · subst h; simp [setP, lookupP]
    · simp [setP, lookupP, h, ih]

theorem lookupP_setP_ne [DecidableEq κ] {k k' : κ} (h : k ≠ k') (v : α) (l : List (κ × α)) :
    lookupP k' (setP k v l) = lookupP k' l := by
  induction l with
  | nil => simp [setP, lookupP, h]
  | cons hd t ih =>
    obtain ⟨k₀, v₀⟩ := hd
    by_cases h0 : k₀ = k
    · subst h0; simp [setP, lookupP, h]
    · simp [setP, lookupP, h0, ih]

@[simp] theorem lookupP_eraseP_self [DecidableEq κ] (k : κ) (l : List (κ × α)) :
    lookupP k (eraseP k l) = none := by
  induction l with
  | nil => rfl
  | cons hd t ih =>
    obtain ⟨k₀, v₀⟩ := hd
    by_cases h0 : k₀ = k
    · subst h0; simpa [eraseP, lookupP] using ih
    · simpa [eraseP, lookupP, h0] using ih

theorem lookupP_eraseP_ne [DecidableEq κ] {k k' : κ} (h : k ≠ k') (l : List (κ × α)) :
    lookupP k' (eraseP k l) = lookupP k' l := by
  induction l with
  | nil => rfl
  | cons hd t ih =>
    obtain ⟨k₀, v₀⟩ := hd
    by_cases h0 : k₀ = k
    · subst h0; simpa [eraseP, lookupP, h] using ih
    · by_cases h1 : k₀ = k'
      · subst h1; simp [eraseP, lookupP, h0]
      · simpa [eraseP, lookupP, h0, h1] using ih

/-- Writing back the value already present leaves the dictionary unchanged. -/
theorem setP_eq_self [DecidableEq κ] {k : κ} {v : α} {l : List (κ × α)}
    (h : lookupP k l = some v) : setP k v l = l := by
  induction l with
  | nil => simp [lookupP] at h
  | cons hd t ih =>
    obtain ⟨k₀, v₀⟩ := hd
    by_cases h0 : k₀ = k
    · subst h0
      simp [lookupP] at h
      simp [setP, h]
    · simp [lookupP, h0] at h
      simp [setP, h0, ih h]

/-- Membership in the key list is the same as a successful lookup. -/
theorem lookupP_isSome_iff_mem_keys [DecidableEq κ] (k : κ) (l : List (κ × α)) :
    (lookupP k l).isSome ↔ k ∈ keysP l := by
  induction l with
  | nil => simp [lookupP, keysP]
  | cons hd t ih =>
    obtain ⟨k₀, v₀⟩ := hd
    by_cases h0 : k₀ = k
    · subst h0; simp [lookupP, keysP]
    · simp [lookupP, keysP, h0, Ne.symm h0, ih]

theorem lookupP_eq_none_of_not_mem [DecidableEq κ] {k : κ} {l : List (κ × α)}
    (h : k ∉ keysP l) : lookupP k l = none := by
  have := (lookupP_isSome_iff_mem_keys k l).not.mpr h
  cases hl : lookupP k l with
  | none => rfl
  | some v => rw [hl] at this; simp at this

theorem mem_keys_of_lookupP_eq_some [DecidableEq κ] {k : κ} {v : α} {l : List (κ × α)}
    (h : lookupP k l = some v) : k ∈ keysP l := by
  have : (lookupP k l).isSome := by rw [h]; rfl
  exact (lookupP_isSome_iff_mem_keys k l).mp this

/-! # Claims -/

/-! ## C5 — `Store.get` freshness protocol -/

/-- `abs(a - b) > 1.0` in Python is `1 < (a - b).natAbs` on integer times. -/
theorem one_lt_natAbs_iff (x : ℤ) : 1 < x.natAbs ↔ (1 : ℤ) < |x| := by
  rw [Int.abs_eq_natAbs]
  norm_cast

/-- C5 (confirmed): `Store.get` (`EmbeddingStorage.get_embedding`) returns
`None` exactly when the row is missing, the file is absent on disk, or the
on-disk mtime differs from the stored mtime by more than one second; in every
other case it returns the stored embedding, content and stored mtime. -/
theorem C5_get_embedding_spec (disk : List (FPath × ℤ))
    (store : List (FPath × StoreRow)) (p : FPath) :
    (get_embedding disk store p = none ↔
      lookupP p disk = none ∨ lookupP p store = none ∨
      (∃ m row, lookupP p disk = some m ∧ lookupP p store = some row ∧
        1 < |m - row.lastModified|)) ∧
    (∀ e c m, get_embedding disk store p = some (e, c, m) →
      ∃ row, lookupP p store = some row ∧
        e = row.embedding ∧ c = row.content ∧ m = row.lastModified) := by
  constructor
  · constructor
    · intro h
      unfold get_embedding at h
      split at h
      next hd => exact Or.inl hd
      next cm hd =>
        split at h
        next hs => exact Or.inr (Or.inl hs)
        next row hs =>
          split at h
          next hfresh =>
            exact Or.inr (Or.inr ⟨cm, row, hd, hs, (one_lt_natAbs_iff _).mp hfresh⟩)
          next hfresh => exact absurd h (by simp)
    · rintro (h | h | ⟨m', row', hm', hrow', hgt⟩)
      · unfold get_embedding; rw [h]
      · unfold get_embedding; rw [h]
        split
        · rfl
        · rfl
      · unfold get_embedding
        rw [hm', hrow']
        exact if_pos ((one_lt_natAbs_iff _).mpr hgt)
  · intro e c m h
    unfold get_embedding at h
    split at h
    next hd => exact absurd h (by simp)
    next cm hd =>
      split at h
      next hs => exact absurd h (by simp)
      next row hs =>
        split at h
        next hfresh => exact absurd h (by simp)
        next hfresh =>
          refine ⟨row, hs, ?_, ?_, ?_⟩
          · exact (congrArg (fun x => x.1) (Option.some.inj h)).symm
          · exact (congrArg (fun x => x.2.1) (Option.some.inj h)).symm
          · exact (congrArg (fun x => x.2.2) (Option.some.inj h)).symm

/-- Witness for C5 at a concrete store: a fresh row is returned as stored. -/
theorem C5_get_embedding_spec_witness :
    ∃ row, lookupP ["a.txt"] [((["a.txt"] : FPath),
      (⟨[7], "hello", 5, -1, ""⟩ : StoreRow))] = some row ∧
      ([7] : Emb) = row.embedding ∧ "hello" = row.content ∧ (5 : ℤ) = row.lastModified :=
  (C5_get_embedding_spec [(["a.txt"], 5)] [(["a.txt"], ⟨[7], "hello", 5, -1, ""⟩)]
    ["a.txt"]).2 [7] "hello" 5 (by decide)

/-! ## C8 — `updateCluster` on a missing row -/

/-- C8 counterexample: on an empty store, `update_cluster` for a missing path
inserts nothing — afterwards the store still has no row for the path, contrary
to the claimed insert-on-missing behaviour. -/
theorem C8_counterexample :
    lookupP ["a.txt"] (update_cluster [] ["a.txt"] 3 "Topic") = none := rfl

/-- C8 (amended): `update_cluster` on a path with no row is a no-op — the SQL
`UPDATE … WHERE filepath = ?` matches zero rows and the store is unchanged;
no row is inserted. -/
theorem C8_amended_update_missing_row (store : List (FPath × StoreRow))
    (p : FPath) (cid : Int) (label : String)
    (h : lookupP p store = none) :
    update_cluster store p cid label = store := by
  induction store with
  | nil => rfl
  | cons hd t ih =>
    obtain ⟨k, row⟩ := hd
    rw [lookupP_cons] at h
    by_cases hk : k = p
    · rw [if_pos hk] at h; cases h
    · rw [if_neg hk] at h
      simp only [update_cluster, List.map_cons]
      rw [if_neg hk]
      have := ih h
      simp only [update_cluster] at this
      rw [this]

/-- Witness for C8 (amended) at a concrete store with one unrelated row. -/
theorem C8_amended_update_missing_row_witness :
    update_cluster [(["b.txt"], ⟨[1], "c", 0, -1, ""⟩)] ["a.txt"] 3 "Topic" =
      [(["b.txt"], ⟨[1], "c", 0, -1, ""⟩)] :=
  C8_amended_update_missing_row [(["b.txt"], ⟨[1], "c", 0, -1, ""⟩)]
    ["a.txt"] 3 "Topic" rfl

/-! ## C2 — self-event suppression timing -/

/-- C2 (confirmed): for every internally initiated move with `src ≠ dst`,
`safe_move` inserts both `src` and `dst` into `pending_moves` before the
rename, the entries are discarded no earlier than `T_settle = 2` seconds after
a successful rename, and while a path is in `pending_moves` every monitor
event whose source or destination equals that path is dropped by
`on_any_event` and never enqueued. -/
theorem C2_self_event_suppression (src dst : FPath) (t0 g1 g2 g3 g4 : ℚ)
    (hne : src ≠ dst) (_hg1 : 0 ≤ g1) (hg2 : 0 ≤ g2) (hg3 : 0 ≤ g3)
    (hg4 : 0 ≤ g4) :
    (∃ ta tb tr,
      (ta, MoveAction.pendingInsert src) ∈ safe_move_timeline src dst t0 g1 g2 g3 g4 ∧
      (tb, MoveAction.pendingInsert dst) ∈ safe_move_timeline src dst t0 g1 g2 g3 g4 ∧
      (tr, MoveAction.renameCall src dst) ∈ safe_move_timeline src dst t0 g1 g2 g3 g4 ∧
      ta ≤ tr ∧ tb ≤ tr) ∧
    (∀ t p tr a b,
      (t, MoveAction.pendingDiscard p) ∈ safe_move_timeline src dst t0 g1 g2 g3 g4 →
      (tr, MoveAction.renameCall a b) ∈ safe_move_timeline src dst t0 g1 g2 g3 g4 →
      tr + T_settle ≤ t) ∧
    (∀ pending queue e p, p ∈ pending →
      (e.srcPath = p ∨ e.destPath = some p) →
      on_any_event pending queue e = queue) := by
  refine ⟨?_, ?_, ?_⟩
  · refine ⟨t0 + g1, t0 + g1, t0 + g1 + g2, ?_, ?_, ?_, by linarith, by linarith⟩
    · simp [safe_move_timeline, hne]
    · simp [safe_move_timeline, hne]
    · simp [safe_move_timeline, hne]
  · intro t p tr a b hdisc hren
    simp [safe_move_timeline, if_neg hne, Prod.mk.injEq] at hdisc hren
    obtain ⟨htr, -, -⟩ := hren
    rcases hdisc with ⟨ht, -⟩ | ⟨ht, -⟩ <;>
      (subst htr; subst ht; simp only [T_settle]; linarith)
  · intro pending queue e p hp hsd
    rcases hsd with hsrc | hdest
    · have hsys : is_system_operation pending e.srcPath = true := by
        rw [hsrc]; simpa [is_system_operation] using hp
      simp [on_any_event, hsys]
    · have hsys : is_system_operation pending p = true := by
        simpa [is_system_operation] using hp
      simp [on_any_event, hdest, hsys]

/-- Witness for C2: a concrete event on a pending path is not enqueued. -/
theorem C2_self_event_suppression_witness :
    on_any_event [["x.txt"]] []
      ⟨false, "created", ["x.txt"], none⟩ = [] :=
  (C2_self_event_suppression ["a"] ["b", "a"] 0 0 0 0 0 (by decide)
    le_rfl le_rfl le_rfl le_rfl).2.2 [["x.txt"]] []
    ⟨false, "created", ["x.txt"], none⟩ ["x.txt"] (by decide) (Or.inl rfl)

/-! ## C10 — cache hit is read-only apart from the two maps -/

/-- C10 (confirmed): on a fresh cached row (`Store.get` hit), `process_file`
returns `True` after copying the stored embedding and content into
`file_embeddings` and `file_contents`; it performs no store write and no
chunk-index add or remove (empty effect trace) and leaves every other state
component — `file_clusters`, the store, the disk and `pending` — unchanged. -/
theorem C10_cache_hit_frame (ex : FPath → Option String) (em : String → Emb)
    (s : EngineState) (p : FPath) (e : Emb) (c : String) (m : ℤ)
    (h1 : pyStartsWith (basenameOf p) "." = false)
    (h2 : (pyEndsWith (basenameOf p) ".txt" || pyEndsWith (basenameOf p) ".pdf") = true)
    (hc : get_embedding s.disk s.store p = some (e, c, m)) :
    process_file ex em s p =
      (true,
       { s with fileEmbeddings := setP p e s.fileEmbeddings,
                fileContents := setP p c s.fileContents },
       []) := by
  unfold process_file
  rw [h1, h2, hc]
  simp

/-- Witness for C10 at a concrete fresh store row. -/
theorem C10_cache_hit_frame_witness :
    process_file (fun _ => none) (fun _ => [])
      ⟨[], [], [], [(["a.txt"], ⟨[7], "hello", 0, -1, ""⟩)], [(["a.txt"], 0)], []⟩
      ["a.txt"] =
      (true,
       ⟨[(["a.txt"], [7])], [(["a.txt"], "hello")], [],
        [(["a.txt"], ⟨[7], "hello", 0, -1, ""⟩)], [(["a.txt"], 0)], []⟩,
       []) :=
  C10_cache_hit_frame (fun _ => none) (fun _ => [])
    ⟨[], [], [], [(["a.txt"], ⟨[7], "hello", 0, -1, ""⟩)], [(["a.txt"], 0)], []⟩
    ["a.txt"] [7] "hello" 0 (by decide) (by decide) (by decide)

/-! ## C9 — the short-text gate -/

/-- C9 counterexample: a text of exactly 10 non-whitespace characters (and no
whitespace at all) is DROPPED by `process_file` — the code requires
`len(text.strip()) > 10`, strictly more than ten characters after stripping —
although the claim promises that a text with 10 or more non-whitespace
characters is embedded and persisted. -/
theorem C9_counterexample :
    10 ≤ nonWhitespaceCount "abcdefghij" ∧
    process_file (fun _ => some "abcdefghij") (fun _ => [1])
      ⟨[], [], [], [], [(["doc.txt"], 0)], []⟩ ["doc.txt"] =
      (false, ⟨[], [], [], [], [(["doc.txt"], 0)], []⟩, []) :=
  ⟨by decide, by decide⟩

/-- C9 (amended): for an eligible file with no fresh cache row whose
extraction succeeds, `process_file` drops the file (returns `False`, writes
nothing to the maps, the store, or the chunk index) exactly when the text has
at most 10 characters after stripping leading and trailing whitespace
(`len(text.strip()) <= 10`); with 11 or more stripped characters it is
embedded, written to both maps, saved to the store and registered with the
chunk index. -/
theorem C9_amended_short_text_gate (ex : FPath → Option String)
    (em : String → Emb) (s : EngineState) (p : FPath) (text : String) (m : ℤ)
    (h1 : pyStartsWith (basenameOf p) "." = false)
    (h2 : (pyEndsWith (basenameOf p) ".txt" || pyEndsWith (basenameOf p) ".pdf") = true)
    (hmiss : get_embedding s.disk s.store p = none)
    (hex : ex p = some text)
    (hdisk : lookupP p s.disk = some m) :
    ((pyStrip text).length ≤ 10 →
      process_file ex em s p = (false, s, [])) ∧
    (10 < (pyStrip text).length →
      process_file ex em s p =
        (true,
         { s with fileEmbeddings := setP p (em text) s.fileEmbeddings,
                  fileContents := setP p text s.fileContents,
                  store := save_embedding s.store p (em text) text m },
         [.storeSave p, .chunkRemove p, .chunkAdd p])) := by
  constructor
  · intro hle
    unfold process_file
    rw [h1, h2, hmiss, hex]
    simp only [Bool.false_eq_true, if_false, Bool.not_true]
    rw [if_neg]
    rintro ⟨-, hgt⟩
    exact absurd hgt (not_lt.mpr hle)
  · intro hgt
    have hne : text ≠ "" := by
      intro h
      subst h
      revert hgt
      decide
    unfold process_file
    rw [h1, h2, hmiss, hex]
    simp only [Bool.false_eq_true, if_false, Bool.not_true]
    rw [if_pos ⟨hne, hgt⟩, hdisk]

/-- Witness for C9 (amended): a 12-character text is embedded and saved. -/
theorem C9_amended_short_text_gate_witness :
    process_file (fun _ => some "abcdefghijkl") (fun _ => [1])
      ⟨[], [], [], [], [(["doc.txt"], 0)], []⟩ ["doc.txt"] =
      (true,
       ⟨[(["doc.txt"], [1])], [(["doc.txt"], "abcdefghijkl")], [],
        [(["doc.txt"], ⟨[1], "abcdefghijkl", 0, -1, ""⟩)], [(["doc.txt"], 0)], []⟩,
       [.storeSave ["doc.txt"], .chunkRemove ["doc.txt"], .chunkAdd ["doc.txt"]]) :=
  (C9_amended_short_text_gate (fun _ => some "abcdefghijkl") (fun _ => [1])
    ⟨[], [], [], [], [(["doc.txt"], 0)], []⟩ ["doc.txt"] "abcdefghijkl" 0
    (by decide) (by decide) (by decide) rfl rfl).2 (by decide)

/-! ## C3 — one reorganize pass per batch -/

/-- Effect counting distributes over trace concatenation. -/
theorem countReclusterPasses_append (a b : List Effect) :
    countReclusterPasses (a ++ b) =
      countReclusterPasses a + countReclusterPasses b := by
  simp [countReclusterPasses, List.filter_append]

/-- `process_file` never invokes `recluster_and_organize`. -/
theorem process_file_no_pass (ex : FPath → Option String) (em : String → Emb)
    (s : EngineState) (p : FPath) :
    countReclusterPasses (process_file ex em s p).2.2 = 0 := by
  unfold process_file
  split
  · rfl
  · split
    · rfl
    · split
      · rfl
      · split
        · rfl
        · split
          · split
            · rfl
            · rfl
          · rfl

/-- The organize loop never invokes `recluster_and_organize` recursively. -/
theorem organize_one_no_pass (s : EngineState) (p : FPath) (cid : Int)
    (label : String) :
    countReclusterPasses (organize_one s p cid label).2 = 0 := by
  by_cases h1 : cid = -1
  · simp [organize_one, h1, countReclusterPasses]
  · by_cases h2 : parentNameOf p = folderNameOf cid label
    · simp [organize_one, h1, h2, countReclusterPasses]
    · by_cases h3 : p = [folderNameOf cid label, basenameOf p]
      · have h4 : ¬(p ≠ [folderNameOf cid label, basenameOf p]) := not_not_intro h3
        simp only [organize_one, if_neg h1, if_neg h2, if_neg h4]
        rfl
      · simp [organize_one, h1, h2, h3, countReclusterPasses]

theorem organize_list_no_pass (l : List (FPath × (Int × String))) :
    ∀ s : EngineState, countReclusterPasses (organize_list s l).2 = 0 := by
  induction l with
  | nil => intro s; simp [organize_list, countReclusterPasses]
  | cons hd t ih =>
    intro s
    simp only [organize_list]
    rw [countReclusterPasses_append, organize_one_no_pass, ih]

/-- `recluster_and_organize` itself emits no nested pass marker. -/
theorem recluster_no_pass (assign : Emb → Int × String) (s : EngineState) :
    countReclusterPasses (recluster_and_organize assign s).2 = 0 := by
  unfold recluster_and_organize
  by_cases h1 : s.fileEmbeddings.isEmpty = true
  · rw [if_pos h1]
    rfl
  · rw [if_neg h1]
    by_cases h2 :
        (s.fileEmbeddings.filter (fun kv => (lookupP kv.1 s.disk).isSome)).isEmpty = true
    · rw [if_pos h2]
      rfl
    · rw [if_neg h2]
      exact organize_list_no_pass _ _


/-- The per-file phase of a batch emits no pass marker. -/
theorem batch_fold_no_pass (ex : FPath → Option String) (em : String → Emb)
    (fps : List FPath) :
    ∀ acc : EngineState × List Effect × Nat,
      countReclusterPasses acc.2.1 = 0 →
      countReclusterPasses (fps.foldl (batch_step ex em) acc).2.1 = 0 := by
  induction fps with
  | nil => intro acc h; exact h
  | cons p t ih =>
    intro acc h
    simp only [List.foldl_cons]
    refine ih _ ?_
    show countReclusterPasses (acc.2.1 ++ (process_file ex em acc.1 p).2.2) = 0
    rw [countReclusterPasses_append, h, process_file_no_pass]

/-- C3 counterexample: a batch consisting of one ineligible dotfile has zero
successes, and `process_files_batch` then triggers NO reorganize pass at all —
contrary to the claim's "exactly one … including when zero files succeed". -/
theorem C3_counterexample :
    countReclusterPasses (process_files_batch (fun _ => none) (fun _ => [])
      (fun _ => (-1, "Uncategorized")) ⟨[], [], [], [], [], []⟩
      [[".hidden.txt"]]).2 = 0 := by decide

/-- C3 (amended): after the batch drains, `process_files_batch` triggers
exactly one `recluster_and_organize` pass when at least one file succeeded,
and no pass at all when zero files succeeded (`if completed > 0`). -/
theorem C3_amended_single_pass (ex : FPath → Option String) (em : String → Emb)
    (assign : Emb → Int × String) (s : EngineState) (fps : List FPath) :
    countReclusterPasses (process_files_batch ex em assign s fps).2 =
      if 0 < (batch_fold ex em s fps).2.2 then 1 else 0 := by
  unfold process_files_batch
  by_cases h : 0 < (batch_fold ex em s fps).2.2
  · rw [if_pos h, if_pos h]
    show countReclusterPasses ((batch_fold ex em s fps).2.1 ++ [.reclusterPass] ++
      (recluster_and_organize assign (batch_fold ex em s fps).1).2) = 1
    rw [countReclusterPasses_append, countReclusterPasses_append]
    have h1 : countReclusterPasses (batch_fold ex em s fps).2.1 = 0 :=
      batch_fold_no_pass ex em fps (s, [], 0) rfl
    have h2 : countReclusterPasses
        (recluster_and_organize assign (batch_fold ex em s fps).1).2 = 0 :=
      recluster_no_pass assign _
    rw [h1, h2]
    rfl
  · rw [if_neg h, if_neg h]
    exact batch_fold_no_pass ex em fps (s, [], 0) rfl

/-! ## C6 — the chunking law -/

/-- The fuel loop of `range` has `ceil((stop - start) / step)` elements as
soon as the fuel suffices. -/
theorem pyRangeAux_length (step : Nat) (hstep : 0 < step) :
    ∀ fuel start stop, stop - start ≤ fuel →
      (pyRangeAux step fuel start stop).length = (stop - start + step - 1) / step := by
  intro fuel
  induction fuel with
  | zero =>
    intro start stop h
    have h0 : stop - start = 0 := by omega
    rw [pyRangeAux, h0]
    exact (Nat.div_eq_of_lt (by omega)).symm
  | succ n ih =>
    intro start stop h
    rw [pyRangeAux]
    by_cases hlt : start < stop
    · rw [if_pos ⟨hstep, hlt⟩]
      simp only [List.length_cons]
      rw [ih (start + step) stop (by omega)]
      by_cases hds : stop - start ≤ step
      · have h0 : stop - (start + step) = 0 := by omega
        have e1 : (0 + step - 1) / step = 0 := Nat.div_eq_of_lt (by omega)
        have e2 : stop - start + step - 1 = (stop - start - 1) + step := by omega
        have e3 : (stop - start - 1) / step = 0 := Nat.div_eq_of_lt (by omega)
        rw [h0, e1, e2, Nat.add_div_right _ hstep, e3]
      · have h1 : stop - (start + step) = stop - start - step := by omega
        have e1 : stop - start - step + step - 1 = (stop - start - step - 1) + step := by
          omega
        have e2 : stop - start + step - 1 = (stop - start - 1) + step := by omega
        have e3 : stop - start - 1 = (stop - start - step - 1) + step := by omega
        rw [h1, e1, e2, Nat.add_div_right _ hstep, Nat.add_div_right _ hstep, e3,
          Nat.add_div_right _ hstep]
    · rw [if_neg (by tauto)]
      have h0 : stop - start = 0 := by omega
      rw [h0]
      exact (Nat.div_eq_of_lt (by omega)).symm

/-- `range(start, stop, step)` has `ceil((stop - start) / step)` elements. -/
theorem pyRange_length (step : Nat) (hstep : 0 < step) (start stop : Nat) :
    (pyRange start stop step).length = (stop - start + step - 1) / step :=
  pyRangeAux_length step hstep (stop - start) start stop le_rfl

set_option maxRecDepth 40000 in
/-- C6 counterexample: for a text of `N = 351` words, `chunk_text` produces
`ceil(N / (W − O)) = 2` windows before the minimum-length filter (the loop
`range(0, N, W − O)` also emits the trailing pure-overlap window), while the
claimed formula `max(1, ceil((N − O) / (W − O)))` evaluates to 1. -/
theorem C6_counterexample :
    (pyWords textC6).length = 351 ∧
    (chunkWindows (pyWords textC6)).length = 2 ∧
    max 1 (((pyWords textC6).length - CHUNK_OVERLAP + (CHUNK_SIZE - CHUNK_OVERLAP) - 1) /
      (CHUNK_SIZE - CHUNK_OVERLAP)) = 1 := by
  refine ⟨by decide, by decide, by decide⟩

/-- C6 (amended): for every text of `N ≥ 1` words, the number of windows
`chunk_text` produces before the minimum-length filter equals
`ceil(N / (W − O))` — the window starts are `range(0, N, W − O)`, one window
per start index, including trailing windows that lie entirely inside the
overlap of their predecessor. -/
theorem C6_amended_window_count (text : String)
    (_h : 1 ≤ (pyWords text).length) :
    (chunkWindows (pyWords text)).length =
      ((pyWords text).length + (CHUNK_SIZE - CHUNK_OVERLAP) - 1) /
        (CHUNK_SIZE - CHUNK_OVERLAP) := by
  unfold chunkWindows
  rw [List.length_map]
  have := pyRange_length (CHUNK_SIZE - CHUNK_OVERLAP) (by decide)
    0 (pyWords text).length
  simpa using this

/-- Witness for C6 (amended) on a three-word text: one window. -/
theorem C6_amended_window_count_witness :
    (chunkWindows (pyWords "a b c")).length =
      ((pyWords "a b c").length + (CHUNK_SIZE - CHUNK_OVERLAP) - 1) /
        (CHUNK_SIZE - CHUNK_OVERLAP) :=
  C6_amended_window_count "a b c" (by decide)

/-! ## C7 — debounce deduplication and dispatcher calls -/

/-- Every entry of `setP k v l` is `(k, v)` or an entry of `l`. -/
theorem mem_setP [DecidableEq κ] {kv : κ × α} {k : κ} {v : α} {l : List (κ × α)}
    (h : kv ∈ setP k v l) : kv = (k, v) ∨ kv ∈ l := by
  induction l with
  | nil => simpa [setP] using h
  | cons hd t ih =>
    obtain ⟨k₀, v₀⟩ := hd
    by_cases h0 : k₀ = k
    · subst h0
      rcases (by simpa [setP] using h : kv = (k₀, v) ∨ kv ∈ t) with h1 | h1
      · exact Or.inl h1
      · exact Or.inr (List.mem_cons_of_mem _ h1)
    · rcases (by simpa [setP, h0] using h : kv = (k₀, v₀) ∨ kv ∈ setP k v t) with h1 | h1
      · exact Or.inr (by simp [h1])
      · rcases ih h1 with h2 | h2
        · exact Or.inl h2
        · exact Or.inr (List.mem_cons_of_mem _ h2)

/-- Key membership after a dictionary write. -/
theorem mem_keys_setP [DecidableEq κ] (k k' : κ) (v : α) (l : List (κ × α)) :
    k' ∈ keysP (setP k v l) ↔ k' = k ∨ k' ∈ keysP l := by
  induction l with
  | nil => simp [setP, keysP]
  | cons hd t ih =>
    obtain ⟨k₀, v₀⟩ := hd
    by_cases h0 : k₀ = k
    · subst h0
      simp [setP, keysP]
    · simp [setP, h0, keysP] at ih ⊢
      tauto

/-- A dictionary write preserves distinctness of the keys. -/
theorem nodup_keys_setP [DecidableEq κ] {k : κ} {v : α} {l : List (κ × α)}
    (h : (keysP l).Nodup) : (keysP (setP k v l)).Nodup := by
  induction l with
  | nil => simp [setP, keysP]
  | cons hd t ih =>
    obtain ⟨k₀, v₀⟩ := hd
    simp only [keysP, List.map_cons, List.nodup_cons] at h
    by_cases h0 : k₀ = k
    · subst h0
      simpa [setP, keysP, List.nodup_cons] using h
    · simp only [setP, if_neg h0, keysP, List.map_cons, List.nodup_cons]
      refine ⟨?_, ih h.2⟩
      intro hmem
      rcases (by simpa [keysP] using (mem_keys_setP k k₀ v t).mp (by simpa [keysP] using hmem)) with h1 | h1
      · exact h0 h1
      · exact h.1 (by simpa [keysP] using h1)

/-- A successful lookup names an entry of the dictionary. -/
theorem lookupP_mem [DecidableEq κ] {k : κ} {v : α} {l : List (κ × α)}
    (h : lookupP k l = some v) : (k, v) ∈ l := by
  induction l with
  | nil => simp [lookupP] at h
  | cons hd t ih =>
    obtain ⟨k₀, v₀⟩ := hd
    by_cases h0 : k₀ = k
    · subst h0
      simp [lookupP] at h
      simp [h]
    · simp only [lookupP, if_neg h0] at h
      exact List.mem_cons_of_mem _ (ih h)

/-- With distinct keys, every entry is found by lookup. -/
theorem lookupP_eq_of_mem_nodup [DecidableEq κ] {k : κ} {v : α} {l : List (κ × α)}
    (hnd : (keysP l).Nodup) (h : (k, v) ∈ l) : lookupP k l = some v := by
  induction l with
  | nil => simp at h
  | cons hd t ih =>
    obtain ⟨k₀, v₀⟩ := hd
    simp only [keysP, List.map_cons, List.nodup_cons] at hnd
    rcases List.mem_cons.mp h with h1 | h1
    · cases h1
      simp [lookupP]
    · have hne : k₀ ≠ k := by
        intro hcon
        subst hcon
        exact hnd.1 (by simpa [keysP] using List.mem_map_of_mem Prod.fst h1)
      simp only [lookupP, if_neg hne]
      exact ih hnd.2 h1

/-- The deduplication fold resolves each source path to its last event. -/
theorem lookup_dedup_fold (q : List FSEvent) :
    ∀ (acc : List (FPath × FSEvent)) (s : FPath),
      lookupP s (q.foldl (fun acc e => setP e.srcPath e acc) acc) =
        match lastEventFor q s with
        | some e => some e
        | none => lookupP s acc := by
  induction q with
  | nil => intro acc s; simp [lastEventFor]
  | cons e rest ih =>
    intro acc s
    simp only [List.foldl_cons]
    rw [ih]
    cases hl : lastEventFor rest s with
    | some e' => simp [lastEventFor, hl]
    | none =>
      simp only [lastEventFor, hl]
      by_cases hs : e.srcPath = s
      · subst hs
        simp [lookupP_setP_self]
      · rw [lookupP_setP_ne hs]
        simp [hs]

/-- Every entry of the deduplication dictionary is keyed by the source path
of its event. -/
theorem dedup_key_eq_src (q : List FSEvent) :
    ∀ (acc : List (FPath × FSEvent)),
      (∀ kv ∈ acc, (kv.2 : FSEvent).srcPath = kv.1) →
      ∀ kv ∈ q.foldl (fun acc e => setP e.srcPath e acc) acc,
        (kv.2 : FSEvent).srcPath = kv.1 := by
  induction q with
  | nil => intro acc h; exact h
  | cons e rest ih =>
    intro acc h
    simp only [List.foldl_cons]
    refine ih _ ?_
    intro kv hkv
    rcases mem_setP hkv with h1 | h1
    · subst h1; rfl
    · exact h kv h1

/-- The deduplication dictionary has distinct keys. -/
theorem dedup_nodup_keys (q : List FSEvent) :
    ∀ (acc : List (FPath × FSEvent)), (keysP acc).Nodup →
      (keysP (q.foldl (fun acc e => setP e.srcPath e acc) acc)).Nodup := by
  induction q with
  | nil => intro acc h; exact h
  | cons e rest ih =>
    intro acc h
    simp only [List.foldl_cons]
    exact ih _ (nodup_keys_setP h)

/-- The keys of the deduplication dictionary are the queued source paths. -/
theorem dedup_mem_keys (q : List FSEvent) :
    ∀ (acc : List (FPath × FSEvent)) (s : FPath),
      (s ∈ keysP (q.foldl (fun acc e => setP e.srcPath e acc) acc) ↔
        s ∈ keysP acc ∨ s ∈ q.map (·.srcPath)) := by
  induction q with
  | nil => intro acc s; simp
  | cons e rest ih =>
    intro acc s
    simp only [List.foldl_cons, List.map_cons, List.mem_cons]
    rw [ih]
    rw [mem_keys_setP]
    tauto

/-- A path with an event in the queue has a last event. -/
theorem lastEventFor_isSome {q : List FSEvent} {e : FSEvent}
    (h : e ∈ q) : ∃ e', lastEventFor q e.srcPath = some e' := by
  induction q with
  | nil => simp at h
  | cons e0 rest ih =>
    rcases List.mem_cons.mp h with h1 | h1
    · subst h1
      cases hl : lastEventFor rest e.srcPath with
      | some e' => exact ⟨e', by simp [lastEventFor, hl]⟩
      | none => exact ⟨e, by simp [lastEventFor, hl]⟩
    · obtain ⟨e', he'⟩ := ih h1
      exact ⟨e', by simp [lastEventFor, he']⟩

/-- C7 counterexample: a debounce window containing two events with distinct
source paths leads to TWO dispatcher invocations (`self.callback(event)` runs
once per unique path, each time with a single event), not to one call carrying
the deduplicated list. -/
theorem C7_counterexample :
    (process_queue_calls
      [⟨false, "created", ["a.txt"], none⟩,
       ⟨false, "created", ["b.txt"], none⟩]).length = 2 := by decide

/-- C7 (amended): on expiry the monitor drains the queue and keeps exactly
the last event per source path — one dispatcher call per distinct source
path, each call carrying that path's last queued event (but separate calls,
not a single batched call). -/
theorem C7_amended_dedup_calls (q : List FSEvent) :
    ((process_queue_calls q).length = ((q.map (·.srcPath)).dedup).length) ∧
    (∀ e ∈ process_queue_calls q, lastEventFor q e.srcPath = some e) ∧
    (∀ e ∈ q, ∃ e', e' ∈ process_queue_calls q ∧ e'.srcPath = e.srcPath) := by
  have hnodup : (keysP (dedup_events q)).Nodup :=
    dedup_nodup_keys q [] (by simp [keysP])
  have hkeys : ∀ s, s ∈ keysP (dedup_events q) ↔ s ∈ q.map (·.srcPath) := by
    intro s
    have h := dedup_mem_keys q [] s
    rw [show keysP ([] : List (FPath × FSEvent)) = [] from rfl] at h
    unfold dedup_events
    rw [h]
    exact or_iff_right (by exact List.not_mem_nil s)
  have hsrc : ∀ kv ∈ dedup_events q, (kv.2 : FSEvent).srcPath = kv.1 :=
    dedup_key_eq_src q [] (by simp)
  refine ⟨?_, ?_, ?_⟩
  · have hlen : (process_queue_calls q).length = (keysP (dedup_events q)).length := by
      simp [process_queue_calls, keysP]
    rw [hlen]
    have hfin : (keysP (dedup_events q)).toFinset = ((q.map (·.srcPath)).dedup).toFinset := by
      ext s
      simp [List.mem_toFinset, List.mem_dedup, hkeys]
    calc (keysP (dedup_events q)).length
        = (keysP (dedup_events q)).toFinset.card := (List.toFinset_card_of_nodup hnodup).symm
      _ = ((q.map (·.srcPath)).dedup).toFinset.card := by rw [hfin]
      _ = ((q.map (·.srcPath)).dedup).length :=
          List.toFinset_card_of_nodup (List.nodup_dedup _)
  · intro e he
    have he2 : e ∈ (dedup_events q).map (·.2) := he
    obtain ⟨kv, hkv, hkv2⟩ := List.mem_map.mp he2
    have hkey : kv.1 = e.srcPath := by rw [← hkv2]; exact (hsrc kv hkv).symm
    have hlook : lookupP kv.1 (dedup_events q) = some kv.2 := by
      apply lookupP_eq_of_mem_nodup hnodup
      cases kv
      exact hkv
    rw [hkey, hkv2] at hlook
    have hfold : lookupP e.srcPath (dedup_events q) =
        match lastEventFor q e.srcPath with
        | some ev => some ev
        | none => lookupP e.srcPath ([] : List (FPath × FSEvent)) :=
      lookup_dedup_fold q [] e.srcPath
    rw [hlook] at hfold
    cases hl : lastEventFor q e.srcPath with
    | some e' => rw [hl] at hfold; simpa using hfold.symm
    | none => rw [hl] at hfold; simp at hfold
  · intro e he
    obtain ⟨e', he'⟩ := lastEventFor_isSome he
    have hfold : lookupP e.srcPath (dedup_events q) =
        match lastEventFor q e.srcPath with
        | some ev => some ev
        | none => lookupP e.srcPath ([] : List (FPath × FSEvent)) :=
      lookup_dedup_fold q [] e.srcPath
    rw [he'] at hfold
    have hmem : (e.srcPath, e') ∈ dedup_events q := lookupP_mem hfold
    refine ⟨e', ?_, ?_⟩
    · exact List.mem_map_of_mem (·.2) hmem
    · exact hsrc (e.srcPath, e') hmem

/-- Witness for C7 (amended) on a two-event window with a duplicate path:
the call for that path carries the later event. -/
theorem C7_amended_dedup_calls_witness :
    lastEventFor
      [⟨false, "created", ["a.txt"], none⟩,
       ⟨false, "modified", ["a.txt"], none⟩] ["a.txt"] =
      some ⟨false, "modified", ["a.txt"], none⟩ :=
  (C7_amended_dedup_calls
    [⟨false, "created", ["a.txt"], none⟩,
     ⟨false, "modified", ["a.txt"], none⟩]).2.1
    ⟨false, "modified", ["a.txt"], none⟩ (by decide)

/-! ## C4 — key-set coherence of the three maps -/

/-- Lookup in a key-filtered dictionary. -/
theorem lookupP_filterKey [DecidableEq κ] (d : κ → Bool) :
    ∀ (l : List (κ × α)) (q : κ),
      lookupP q (l.filter (fun kv => d kv.1)) =
        if d q then lookupP q l else none := by
  intro l
  induction l with
  | nil => intro q; by_cases hq : d q <;> simp [lookupP, hq]
  | cons hd t ih =>
    intro q
    obtain ⟨k₀, v₀⟩ := hd
    rw [List.filter_cons]
    by_cases hd0 : d k₀ = true
    · rw [if_pos (by simpa using hd0)]
      by_cases h0 : k₀ = q
      · subst h0
        simp [lookupP, hd0]
      · rw [lookupP_cons, if_neg h0, ih q, lookupP_cons, if_neg h0]
    · rw [if_neg (by simpa using hd0)]
      rw [ih q]
      by_cases h0 : k₀ = q
      · subst h0
        have hd0' : d k₀ = false := by simpa using hd0
        simp [lookupP, hd0']
      · rw [lookupP_cons, if_neg h0]

/-- Erasure keeps the keys distinct. -/
theorem nodup_keys_eraseP [DecidableEq κ] {l : List (κ × α)} (k : κ)
    (h : (keysP l).Nodup) : (keysP (eraseP k l)).Nodup :=
  List.Nodup.sublist (List.Sublist.map _ (List.filter_sublist l)) h

/-- A key filter keeps the keys distinct. -/
theorem nodup_keys_filter [DecidableEq κ] {l : List (κ × α)} (pred : κ × α → Bool)
    (h : (keysP l).Nodup) : (keysP (l.filter pred)).Nodup :=
  List.Nodup.sublist (List.Sublist.map _ (List.filter_sublist l)) h

/-- Writing the same fresh key to two same-keyed dictionaries keeps them
same-keyed. -/
theorem sameKeys_insert {emb : List (FPath × Emb)} {con : List (FPath × String)}
    (h : SameKeys emb con) (p : FPath) (e : Emb) (c : String) :
    SameKeys (setP p e emb) (setP p c con) := by
  intro q
  by_cases hq : p = q
  · subst hq; simp
  · rw [lookupP_setP_ne hq, lookupP_setP_ne hq]
    exact h q

/-- Renaming a key in two same-keyed dictionaries keeps them same-keyed. -/
theorem sameKeys_move {emb : List (FPath × Emb)} {con : List (FPath × String)}
    (h : SameKeys emb con) (src dest : FPath) (v : Emb) (c : String) :
    SameKeys (setP dest v (eraseP src emb)) (setP dest c (eraseP src con)) := by
  intro q
  by_cases hq : dest = q
  · subst hq; simp
  · rw [lookupP_setP_ne hq, lookupP_setP_ne hq]
    by_cases hs : src = q
    · subst hs; simp
    · rw [lookupP_eraseP_ne hs, lookupP_eraseP_ne hs]
      exact h q

/-- `safe_move` touches only `disk` and `pending`. -/
theorem safe_move_maps (s : EngineState) (src dst : FPath) :
    (safe_move s src dst).fileEmbeddings = s.fileEmbeddings ∧
    (safe_move s src dst).fileContents = s.fileContents ∧
    (safe_move s src dst).fileClusters = s.fileClusters := by
  unfold safe_move
  split
  · exact ⟨rfl, rfl, rfl⟩
  · split
    · exact ⟨rfl, rfl, rfl⟩
    · exact ⟨rfl, rfl, rfl⟩

/-- The organize-loop iteration on a relocated file, with the dictionary
lookups resolved. -/
theorem organize_one_move_eq {s : EngineState} {p : FPath} {cid : Int}
    {label : String}
    (h1 : cid ≠ -1) (h2 : parentNameOf p ≠ folderNameOf cid label)
    (h3 : p ≠ [folderNameOf cid label, basenameOf p])
    {v : Emb} (hv : lookupP p s.fileEmbeddings = some v)
    {c : String} (hc : lookupP p s.fileContents = some c) :
    organize_one s p cid label =
      (safe_move
        { s with
          fileEmbeddings := setP [folderNameOf cid label, basenameOf p] v
            (eraseP p s.fileEmbeddings),
          fileContents := setP [folderNameOf cid label, basenameOf p] c
            (eraseP p s.fileContents),
          fileClusters := eraseP p (setP [folderNameOf cid label, basenameOf p]
            (cid, label) s.fileClusters),
          store := update_cluster s.store [folderNameOf cid label, basenameOf p]
            cid label }
        p [folderNameOf cid label, basenameOf p],
       [.storeUpdate [folderNameOf cid label, basenameOf p],
        .chunkUpdate [folderNameOf cid label, basenameOf p],
        .safeMoveCall p [folderNameOf cid label, basenameOf p]]) := by
  simp only [organize_one, if_neg h1, if_neg h2, if_pos h3, hv, hc]

/-- The embedding map after a relocating organize-loop iteration. -/
theorem organize_one_move_fileEmbeddings {s : EngineState} {p : FPath}
    {cid : Int} {label : String}
    (h1 : cid ≠ -1) (h2 : parentNameOf p ≠ folderNameOf cid label)
    (h3 : p ≠ [folderNameOf cid label, basenameOf p])
    {v : Emb} (hv : lookupP p s.fileEmbeddings = some v)
    {c : String} (hc : lookupP p s.fileContents = some c) :
    (organize_one s p cid label).1.fileEmbeddings =
      setP [folderNameOf cid label, basenameOf p] v (eraseP p s.fileEmbeddings) := by
  rw [organize_one_move_eq h1 h2 h3 hv hc]
  exact (safe_move_maps _ _ _).1

/-- One organize-loop iteration preserves map coherence, assuming its
filepath currently has an embedding. -/
theorem organize_one_coherent {s : EngineState} (p : FPath) (cid : Int)
    (label : String) (h : MapsCoherent s)
    (hp : (lookupP p s.fileEmbeddings).isSome) :
    MapsCoherent (organize_one s p cid label).1 := by
  obtain ⟨hsk, hsub, hnd⟩ := h
  by_cases h1 : cid = -1
  · simpa [organize_one, h1] using ⟨hsk, hsub, hnd⟩
  · by_cases h2 : parentNameOf p = folderNameOf cid label
    · refine ⟨?_, ?_, ?_⟩ <;> simp only [organize_one, if_neg h1, if_pos h2]
      · exact hsk
      · intro q hq
        by_cases hpq : p = q
        · subst hpq; exact hp
        · rw [lookupP_setP_ne hpq] at hq
          exact hsub q hq
      · exact hnd
    · have h3 : p ≠ [folderNameOf cid label, basenameOf p] := by
        intro hcon
        apply h2
        rw [hcon]
        simp
      obtain ⟨v, hv⟩ := Option.isSome_iff_exists.mp hp
      have hcs : (lookupP p s.fileContents).isSome := (hsk p).mp hp
      obtain ⟨c, hc⟩ := Option.isSome_iff_exists.mp hcs
      rw [organize_one_move_eq h1 h2 h3 hv hc]
      obtain ⟨hm1, hm2, hm3⟩ := safe_move_maps _ p [folderNameOf cid label, basenameOf p]
      refine ⟨?_, ?_, ?_⟩
      · show SameKeys _ _
        rw [hm1, hm2]
        exact sameKeys_move hsk p [folderNameOf cid label, basenameOf p] v c
      · show SubKeys _ _
        rw [hm1, hm3]
        intro q hq
        by_cases hq1 : [folderNameOf cid label, basenameOf p] = q
        · rw [← hq1]
          simp
        · by_cases hq2 : p = q
          · rw [← hq2, lookupP_eraseP_self] at hq
            simp at hq
          · rw [lookupP_eraseP_ne hq2, lookupP_setP_ne hq1] at hq
            rw [lookupP_setP_ne hq1, lookupP_eraseP_ne hq2]
            exact hsub q hq
      · show ((keysP _).Nodup)
        rw [hm1]
        exact nodup_keys_setP (nodup_keys_eraseP p hnd)

/-- The organize loop preserves map coherence. -/
theorem organize_list_coherent :
    ∀ (l : List (FPath × (Int × String))) (s : EngineState),
      MapsCoherent s →
      (∀ kv ∈ l, (lookupP kv.1 s.fileEmbeddings).isSome) →
      (keysP l).Nodup →
      MapsCoherent (organize_list s l).1 := by
  intro l
  induction l with
  | nil => intro s h _ _; exact h
  | cons kv rest ih =>
    intro s h hcoh hnd
    simp only [organize_list]
    have hp : (lookupP kv.1 s.fileEmbeddings).isSome := hcoh kv (by simp)
    refine ih _ (organize_one_coherent kv.1 kv.2.1 kv.2.2 h hp) ?_ ?_
    · intro kv' hkv'
      have hne : kv'.1 ≠ kv.1 := by
        simp only [keysP, List.map_cons, List.nodup_cons] at hnd
        intro hcon
        exact hnd.1 (hcon ▸ List.mem_map_of_mem Prod.fst hkv')
      have hold : (lookupP kv'.1 s.fileEmbeddings).isSome := hcoh kv' (by simp [hkv'])
      -- the embedding key either survives untouched or was renamed away only
      -- if it was the processed key itself
      by_cases h1 : kv.2.1 = -1
      · simpa [organize_one, h1] using hold
      · by_cases h2 : parentNameOf kv.1 = folderNameOf kv.2.1 kv.2.2
        · simpa [organize_one, if_neg h1, if_pos h2] using hold
        · have h3 : kv.1 ≠ [folderNameOf kv.2.1 kv.2.2, basenameOf kv.1] := by
            intro hcon
            apply h2
            rw [hcon]
            simp
          obtain ⟨v, hv⟩ := Option.isSome_iff_exists.mp hp
          have hcs : (lookupP kv.1 s.fileContents).isSome := (h.1 kv.1).mp hp
          obtain ⟨c, hc⟩ := Option.isSome_iff_exists.mp hcs
          rw [organize_one_move_fileEmbeddings h1 h2 h3 hv hc]
          by_cases hq1 : [folderNameOf kv.2.1 kv.2.2, basenameOf kv.1] = kv'.1
          · rw [← hq1]; simp
          · rw [lookupP_setP_ne hq1, lookupP_eraseP_ne (Ne.symm hne)]
            exact hold
    · simp only [keysP, List.map_cons, List.nodup_cons] at hnd
      exact hnd.2

/-- `recluster_and_organize` preserves map coherence. -/
theorem recluster_coherent (assign : Emb → Int × String) (s : EngineState)
    (h : MapsCoherent s) : MapsCoherent (recluster_and_organize assign s).1 := by
  obtain ⟨hsk, hsub, hnd⟩ := h
  unfold recluster_and_organize
  by_cases h1 : s.fileEmbeddings.isEmpty = true
  · rw [if_pos h1]
    refine ⟨hsk, ?_, hnd⟩
    intro q hq
    simp [lookupP] at hq
  · rw [if_neg h1]
    have hfe : ∀ (q : FPath),
        lookupP q (s.fileEmbeddings.filter (fun kv => (lookupP kv.1 s.disk).isSome)) =
          if (lookupP q s.disk).isSome then lookupP q s.fileEmbeddings else none :=
      fun q => lookupP_filterKey (fun k => (lookupP k s.disk).isSome) s.fileEmbeddings q
    have hfc : ∀ (q : FPath),
        lookupP q (s.fileContents.filter (fun kv => (lookupP kv.1
            (s.fileEmbeddings.filter (fun kv => (lookupP kv.1 s.disk).isSome))).isSome)) =
          if (lookupP q (s.fileEmbeddings.filter
              (fun kv => (lookupP kv.1 s.disk).isSome))).isSome
          then lookupP q s.fileContents else none :=
      fun q => lookupP_filterKey
        (fun k => (lookupP k (s.fileEmbeddings.filter
          (fun kv => (lookupP kv.1 s.disk).isSome))).isSome) s.fileContents q
    have hfl : ∀ (q : FPath),
        lookupP q (s.fileClusters.filter (fun kv => (lookupP kv.1
            (s.fileEmbeddings.filter (fun kv => (lookupP kv.1 s.disk).isSome))).isSome)) =
          if (lookupP q (s.fileEmbeddings.filter
              (fun kv => (lookupP kv.1 s.disk).isSome))).isSome
          then lookupP q s.fileClusters else none :=
      fun q => lookupP_filterKey
        (fun k => (lookupP k (s.fileEmbeddings.filter
          (fun kv => (lookupP kv.1 s.disk).isSome))).isSome) s.fileClusters q
    have hcoh1 : MapsCoherentL
        (s.fileEmbeddings.filter (fun kv => (lookupP kv.1 s.disk).isSome))
        (s.fileContents.filter (fun kv => (lookupP kv.1
          (s.fileEmbeddings.filter (fun kv => (lookupP kv.1 s.disk).isSome))).isSome))
        (s.fileClusters.filter (fun kv => (lookupP kv.1
          (s.fileEmbeddings.filter (fun kv => (lookupP kv.1 s.disk).isSome))).isSome)) := by
      refine ⟨?_, ?_, ?_⟩
      · intro q
        rw [hfe q, hfc q, hfe q]
        by_cases hdq : (lookupP q s.disk).isSome
        · simp only [if_pos hdq]
          by_cases heq : (lookupP q s.fileEmbeddings).isSome
          · simp [heq, hdq, (hsk q).mp heq]
          · have hcq : ¬ (lookupP q s.fileContents).isSome := fun hc => heq ((hsk q).mpr hc)
            simp [heq, hdq, hcq]
        · simp [hdq]
      · intro q hq
        rw [hfl q] at hq
        rw [hfe q]
        by_cases hins : (lookupP q (s.fileEmbeddings.filter
            (fun kv => (lookupP kv.1 s.disk).isSome))).isSome
        · rw [hfe q] at hins
          exact hins
        · rw [if_neg hins] at hq
          simp at hq
      · exact nodup_keys_filter _ hnd
    by_cases h2 : (s.fileEmbeddings.filter
        (fun kv => (lookupP kv.1 s.disk).isSome)).isEmpty = true
    · rw [if_pos h2]
      exact hcoh1
    · rw [if_neg h2]
      refine organize_list_coherent _ _ hcoh1 ?_ ?_
      · intro kv hkv
        obtain ⟨kv0, hkv0, hkv0e⟩ := List.mem_map.mp hkv
        have : kv.1 ∈ keysP (s.fileEmbeddings.filter
            (fun kv => (lookupP kv.1 s.disk).isSome)) := by
          rw [← hkv0e]
          exact List.mem_map_of_mem Prod.fst hkv0
        exact (lookupP_isSome_iff_mem_keys _ _).mpr this
      · have : keysP ((s.fileEmbeddings.filter
            (fun kv => (lookupP kv.1 s.disk).isSome)).map
              (fun kv => (kv.1, assign kv.2))) =
            keysP (s.fileEmbeddings.filter (fun kv => (lookupP kv.1 s.disk).isSome)) := by
          simp [keysP, List.map_map]
        rw [this]
        exact nodup_keys_filter _ hnd

/-- Inserting the same key into embeddings and contents together preserves
coherence. -/
theorem coherent_insert_both {emb : List (FPath × Emb)}
    {con : List (FPath × String)} {clu : List (FPath × (Int × String))}
    (h : MapsCoherentL emb con clu) (p : FPath) (e : Emb) (c : String) :
    MapsCoherentL (setP p e emb) (setP p c con) clu := by
  obtain ⟨hsk, hsub, hnd⟩ := h
  refine ⟨sameKeys_insert hsk p e c, ?_, nodup_keys_setP hnd⟩
  intro q hq
  by_cases hpq : p = q
  · subst hpq; simp
  · rw [lookupP_setP_ne hpq]
    exact hsub q hq

/-- `process_file` preserves map coherence. -/
theorem process_file_coherent (ex : FPath → Option String) (em : String → Emb)
    (s : EngineState) (p : FPath) (h : MapsCoherent s) :
    MapsCoherent (process_file ex em s p).2.1 := by
  unfold process_file
  split
  · exact h
  · split
    · exact h
    · split
      next e c m heq => exact coherent_insert_both h p e c
      next heq =>
        split
        · exact h
        · rename_i text heq2
          split
          · split
            · exact coherent_insert_both h p (em text) text
            · exact coherent_insert_both h p (em text) text
          · exact h

/-- One step of the event scan preserves map coherence. -/
theorem scan_event_step_coherent (acc : ScanAcc) (e : FSEvent)
    (h : MapsCoherent acc.state) : MapsCoherent (scan_event_step acc e).state := by
  unfold scan_event_step
  dsimp only
  split
  · exact h
  · split
    · split
      · exact h
      · exact h
    · split
      · split
        next hsome =>
          obtain ⟨hsk, hsub, hnd⟩ := h
          obtain ⟨v, hv⟩ := Option.isSome_iff_exists.mp hsome
          have hcs : (lookupP e.srcPath acc.state.fileContents).isSome :=
            (hsk e.srcPath).mp hsome
          obtain ⟨c, hc⟩ := Option.isSome_iff_exists.mp hcs
          rw [MapsCoherent]
          dsimp only
          rw [hv, hc]
          dsimp only
          cases hcl : lookupP e.srcPath acc.state.fileClusters with
          | some cl =>
            dsimp only
            refine ⟨?_, ?_, ?_⟩
            · exact sameKeys_move hsk e.srcPath (e.destPath.getD []) v c
            · intro q hq
              by_cases hq1 : e.destPath.getD [] = q
              · rw [← hq1]; simp
              · by_cases hq2 : e.srcPath = q
                · subst hq2
                  rw [lookupP_setP_ne hq1, lookupP_eraseP_self] at hq
                  simp at hq
                · rw [lookupP_setP_ne hq1, lookupP_eraseP_ne hq2] at hq
                  rw [lookupP_setP_ne hq1, lookupP_eraseP_ne hq2]
                  exact hsub q hq
            · exact nodup_keys_setP (nodup_keys_eraseP e.srcPath hnd)
          | none =>
            dsimp only
            refine ⟨?_, ?_, ?_⟩
            · exact sameKeys_move hsk e.srcPath (e.destPath.getD []) v c
            · intro q hq
              by_cases hq1 : e.destPath.getD [] = q
              · rw [← hq1]; simp
              · by_cases hq2 : e.srcPath = q
                · subst hq2
                  rw [hcl] at hq
                  simp at hq
                · rw [lookupP_setP_ne hq1, lookupP_eraseP_ne hq2]
                  exact hsub q hq
            · exact nodup_keys_setP (nodup_keys_eraseP e.srcPath hnd)
        · exact h
      · split
        · split
          · exact h
          · exact h
        · exact h

/-- The full event scan preserves map coherence. -/
theorem scan_events_foldl_coherent (events : List FSEvent) :
    ∀ acc : ScanAcc, MapsCoherent acc.state →
      MapsCoherent (events.foldl scan_event_step acc).state := by
  induction events with
  | nil => intro acc h; exact h
  | cons e rest ih =>
    intro acc h
    simp only [List.foldl_cons]
    exact ih _ (scan_event_step_coherent acc e h)

/-- The per-file phase of a batch preserves map coherence. -/
theorem batch_fold_coherent_aux (ex : FPath → Option String) (em : String → Emb)
    (fps : List FPath) :
    ∀ acc : EngineState × List Effect × Nat, MapsCoherent acc.1 →
      MapsCoherent (fps.foldl (batch_step ex em) acc).1 := by
  induction fps with
  | nil => intro acc h; exact h
  | cons p t ih =>
    intro acc h
    simp only [List.foldl_cons]
    exact ih _ (process_file_coherent ex em acc.1 p h)

/-- `process_files_batch` preserves map coherence. -/
theorem process_files_batch_coherent (ex : FPath → Option String)
    (em : String → Emb) (assign : Emb → Int × String) (s : EngineState)
    (fps : List FPath) (h : MapsCoherent s) :
    MapsCoherent (process_files_batch ex em assign s fps).1 := by
  unfold process_files_batch
  dsimp only
  split
  · exact recluster_coherent assign _
      (batch_fold_coherent_aux ex em fps (s, [], 0) h)
  · exact batch_fold_coherent_aux ex em fps (s, [], 0) h

/-- One deletion (erase from the three maps and the store, then recluster)
preserves map coherence. -/
theorem delete_one_coherent (assign : Emb → Int × String)
    (acc : EngineState × List Effect) (d : FPath) (h : MapsCoherent acc.1) :
    MapsCoherent (delete_one assign acc d).1 := by
  unfold delete_one
  apply recluster_coherent
  obtain ⟨hsk, hsub, hnd⟩ := h
  refine ⟨?_, ?_, ?_⟩
  · intro q
    by_cases hq : d = q
    · subst hq; simp
    · rw [lookupP_eraseP_ne hq, lookupP_eraseP_ne hq]
      exact hsk q
  · intro q hq
    by_cases hd : d = q
    · subst hd
      rw [lookupP_eraseP_self] at hq
      simp at hq
    · rw [lookupP_eraseP_ne hd] at hq
      rw [lookupP_eraseP_ne hd]
      exact hsub q hq
  · exact nodup_keys_eraseP d hnd

/-- The deletion loop preserves map coherence. -/
theorem delete_fold_coherent (assign : Emb → Int × String) (ds : List FPath) :
    ∀ acc : EngineState × List Effect, MapsCoherent acc.1 →
      MapsCoherent (ds.foldl (delete_one assign) acc).1 := by
  induction ds with
  | nil => intro acc h; exact h
  | cons d t ih =>
    intro acc h
    simp only [List.foldl_cons]
    exact ih _ (delete_one_coherent assign acc d h)

/-- `event_callback` preserves map coherence. -/
theorem event_callback_coherent (ex : FPath → Option String) (em : String → Emb)
    (assign : Emb → Int × String) (s : EngineState) (events : List FSEvent)
    (h : MapsCoherent s) :
    MapsCoherent (event_callback ex em assign s events).1 := by
  unfold event_callback
  have hscan : MapsCoherent (scan_events s events).state :=
    scan_events_foldl_coherent events ⟨[], [], s, []⟩ h
  apply delete_fold_coherent
  show MapsCoherent (if (scan_events s events).toProcess ≠ [] then
    process_files_batch ex em assign (scan_events s events).state
      (scan_events s events).toProcess
    else ((scan_events s events).state, [])).1
  split
  · exact process_files_batch_coherent ex em assign _ _ hscan
  · exact hscan

/-- C4 counterexample: the claimed inclusion `keys(clusters) ⊇
keys(embeddings)` fails — a file the clusterer marks as noise (`cid = -1`) is
skipped by the organize loop and never written to `file_clusters`, so after
this completed `recluster_and_organize` invocation the embedding map has a
key that the cluster map lacks. -/
theorem C4_counterexample :
    (lookupP ["a.txt"]
      (recluster_and_organize (fun _ => (-1, "Uncategorized"))
        ⟨[(["a.txt"], [1])], [(["a.txt"], "text")], [], [],
         [(["a.txt"], 0)], []⟩).1.fileEmbeddings).isSome ∧
    lookupP ["a.txt"]
      (recluster_and_organize (fun _ => (-1, "Uncategorized"))
        ⟨[(["a.txt"], [1])], [(["a.txt"], "text")], [], [],
         [(["a.txt"], 0)], []⟩).1.fileClusters = none := by
  refine ⟨by decide, by decide⟩

/-- C4 (amended): the invariant that holds after every completed
`process_file`, `event_callback` and `recluster_and_organize` invocation is
`keys(file_embeddings) = keys(file_contents)` together with the REVERSE
inclusion `keys(file_clusters) ⊆ keys(file_embeddings)` (noise files stay out
of `file_clusters`), preserved by each of the three operations on well-formed
maps. -/
theorem C4_amended_map_coherence :
    (∀ (ex : FPath → Option String) (em : String → Emb) (s : EngineState)
      (p : FPath), MapsCoherent s → MapsCoherent (process_file ex em s p).2.1) ∧
    (∀ (assign : Emb → Int × String) (s : EngineState),
      MapsCoherent s → MapsCoherent (recluster_and_organize assign s).1) ∧
    (∀ (ex : FPath → Option String) (em : String → Emb)
      (assign : Emb → Int × String) (s : EngineState) (events : List FSEvent),
      MapsCoherent s → MapsCoherent (event_callback ex em assign s events).1) :=
  ⟨process_file_coherent, recluster_coherent, event_callback_coherent⟩

/-- Witness for C4 (amended): coherence survives a concrete fresh ingestion. -/
theorem C4_amended_map_coherence_witness :
    MapsCoherent (process_file (fun _ => some "abcdefghijkl") (fun _ => [1])
      ⟨[], [], [], [], [(["doc.txt"], 0)], []⟩ ["doc.txt"]).2.1 :=
  C4_amended_map_coherence.1 (fun _ => some "abcdefghijkl") (fun _ => [1])
    ⟨[], [], [], [], [(["doc.txt"], 0)], []⟩ ["doc.txt"]
    ⟨fun _ => Iff.rfl, fun _ h => h, List.nodup_nil⟩

/-! ## C1 — idempotence of the organizer -/

/-- A list mapped without duplicates is injective on its members. -/
theorem nodup_map_inj {f : α → β} :
    ∀ {l : List α}, (l.map f).Nodup →
      ∀ a ∈ l, ∀ b ∈ l, f a = f b → a = b := by
  intro l
  induction l with
  | nil => simp
  | cons x t ih =>
    intro h a ha b hb hfab
    simp only [List.map_cons, List.nodup_cons] at h
    rcases List.mem_cons.mp ha with rfl | ha'
    · rcases List.mem_cons.mp hb with rfl | hb'
      · rfl
      · exact absurd (hfab ▸ List.mem_map_of_mem f hb') h.1
    · rcases List.mem_cons.mp hb with rfl | hb'
      · exact absurd (hfab ▸ List.mem_map_of_mem f ha') h.1
      · exact ih h.2 a ha' b hb' hfab

/-- Writing a fresh key appends the entry. -/
theorem setP_fresh_append [DecidableEq κ] {k : κ} {l : List (κ × α)}
    (h : k ∉ keysP l) (v : α) : setP k v l = l ++ [(k, v)] := by
  induction l with
  | nil => rfl
  | cons hd t ih =>
    obtain ⟨k₀, v₀⟩ := hd
    simp only [keysP, List.map_cons, List.mem_cons] at h
    push_neg at h
    simp only [setP, if_neg (Ne.symm h.1), List.cons_append]
    rw [ih (by simpa [keysP] using h.2)]

/-- `safe_move` counting distributes over concatenation. -/
theorem countSafeMoves_append (a b : List Effect) :
    countSafeMoves (a ++ b) = countSafeMoves a + countSafeMoves b := by
  simp [countSafeMoves, List.filter_append]

/-- A successful internal move, with its disk lookup resolved. -/
theorem safe_move_some (s : EngineState) {src dst : FPath} (hne : src ≠ dst)
    {m : ℤ} (hm : lookupP src s.disk = some m) :
    safe_move s src dst =
      { s with disk := setP dst m (eraseP src s.disk),
               pending := src :: dst :: s.pending } := by
  unfold safe_move
  rw [if_neg hne, hm]

/-- Contents map after a relocating organize-loop iteration. -/
theorem organize_one_move_fileContents {s : EngineState} {p : FPath}
    {cid : Int} {label : String}
    (h1 : cid ≠ -1) (h2 : parentNameOf p ≠ folderNameOf cid label)
    (h3 : p ≠ [folderNameOf cid label, basenameOf p])
    {v : Emb} (hv : lookupP p s.fileEmbeddings = some v)
    {c : String} (hc : lookupP p s.fileContents = some c) :
    (organize_one s p cid label).1.fileContents =
      setP [folderNameOf cid label, basenameOf p] c (eraseP p s.fileContents) := by
  rw [organize_one_move_eq h1 h2 h3 hv hc]
  exact (safe_move_maps _ _ _).2.1

/-- Clusters map after a relocating organize-loop iteration. -/
theorem organize_one_move_fileClusters {s : EngineState} {p : FPath}
    {cid : Int} {label : String}
    (h1 : cid ≠ -1) (h2 : parentNameOf p ≠ folderNameOf cid label)
    (h3 : p ≠ [folderNameOf cid label, basenameOf p])
    {v : Emb} (hv : lookupP p s.fileEmbeddings = some v)
    {c : String} (hc : lookupP p s.fileContents = some c) :
    (organize_one s p cid label).1.fileClusters =
      eraseP p (setP [folderNameOf cid label, basenameOf p] (cid, label)
        s.fileClusters) := by
  rw [organize_one_move_eq h1 h2 h3 hv hc]
  exact (safe_move_maps _ _ _).2.2

/-- Disk contents after a relocating organize-loop iteration. -/
theorem organize_one_move_disk {s : EngineState} {p : FPath}
    {cid : Int} {label : String}
    (h1 : cid ≠ -1) (h2 : parentNameOf p ≠ folderNameOf cid label)
    (h3 : p ≠ [folderNameOf cid label, basenameOf p])
    {v : Emb} (hv : lookupP p s.fileEmbeddings = some v)
    {c : String} (hc : lookupP p s.fileContents = some c)
    {m : ℤ} (hm : lookupP p s.disk = some m) :
    (organize_one s p cid label).1.disk =
      setP [folderNameOf cid label, basenameOf p] m (eraseP p s.disk) := by
  rw [organize_one_move_eq h1 h2 h3 hv hc]
  rw [safe_move_some
    { s with
      fileEmbeddings := setP [folderNameOf cid label, basenameOf p] v
        (eraseP p s.fileEmbeddings),
      fileContents := setP [folderNameOf cid label, basenameOf p] c
        (eraseP p s.fileContents),
      fileClusters := eraseP p (setP [folderNameOf cid label, basenameOf p]
        (cid, label) s.fileClusters),
      store := update_cluster s.store [folderNameOf cid label, basenameOf p]
        cid label }
    h3 hm]

/-- An entry of a distinct-key dictionary is what lookup returns. -/
theorem entry_eq_lookup [DecidableEq κ] {l : List (κ × α)}
    (hnd : (keysP l).Nodup) {kv : κ × α} (h : kv ∈ l) :
    lookupP kv.1 l = some kv.2 := by
  obtain ⟨k, v⟩ := kv
  exact lookupP_eq_of_mem_nodup hnd h

/-- On a state where every non-noise file is already placed, the organize
loop changes none of the three maps and performs no `safe_move`. -/
theorem organize_list_noop (assign : Emb → Int × String) :
    ∀ (l : List (FPath × (Int × String))) (s : EngineState),
      (keysP s.fileEmbeddings).Nodup →
      (∀ kv ∈ l, ∃ v, lookupP kv.1 s.fileEmbeddings = some v ∧ assign v = kv.2) →
      (∀ kv ∈ s.fileEmbeddings, (assign kv.2).1 = -1 ∨
        (parentNameOf kv.1 = folderNameOf (assign kv.2).1 (assign kv.2).2 ∧
         lookupP kv.1 s.fileClusters = some (assign kv.2))) →
      (organize_list s l).1.fileEmbeddings = s.fileEmbeddings ∧
      (organize_list s l).1.fileContents = s.fileContents ∧
      (organize_list s l).1.fileClusters = s.fileClusters ∧
      countSafeMoves (organize_list s l).2 = 0 := by
  intro l
  induction l with
  | nil => intro s _ _ _; exact ⟨rfl, rfl, rfl, rfl⟩
  | cons kv rest ih =>
    intro s hnd hcoh hplaced
    obtain ⟨v, hv, hav⟩ := hcoh kv (by simp)
    have hmem : (kv.1, v) ∈ s.fileEmbeddings := lookupP_mem hv
    by_cases hcid : kv.2.1 = -1
    · have hone : organize_one s kv.1 kv.2.1 kv.2.2 = (s, []) := by
        simp [organize_one, hcid]
      simp only [organize_list, hone]
      have hrest := ih s hnd (fun kv' hkv' => hcoh kv' (by simp [hkv'])) hplaced
      exact ⟨hrest.1, hrest.2.1, hrest.2.2.1, by
        rw [countSafeMoves_append]
        simpa [countSafeMoves] using hrest.2.2.2⟩
    · have hpl := hplaced (kv.1, v) hmem
      rw [hav] at hpl
      rcases hpl with hnoise | ⟨hpar, hclu⟩
      · exact absurd hnoise hcid
      · have hone : organize_one s kv.1 kv.2.1 kv.2.2 =
            ({ s with fileClusters := s.fileClusters,
                      store := update_cluster s.store kv.1 kv.2.1 kv.2.2 },
             [.storeUpdate kv.1]) := by
          have hset : setP kv.1 (kv.2.1, kv.2.2) s.fileClusters = s.fileClusters :=
            setP_eq_self hclu
          simp [organize_one, hcid, hpar, hset]
        simp only [organize_list, hone]
        have hrest := ih
          { s with fileClusters := s.fileClusters,
                   store := update_cluster s.store kv.1 kv.2.1 kv.2.2 }
          hnd (fun kv' hkv' => hcoh kv' (by simp [hkv'])) hplaced
        exact ⟨hrest.1, hrest.2.1, hrest.2.2.1, by
          rw [countSafeMoves_append]
          simpa [countSafeMoves] using hrest.2.2.2⟩

/-- A pass over an `Organized` state leaves the three maps untouched and
issues no `safe_move` call. -/
theorem recluster_noop_of_organized (assign : Emb → Int × String)
    (s : EngineState) (h : Organized assign s) :
    (recluster_and_organize assign s).1.fileEmbeddings = s.fileEmbeddings ∧
    (recluster_and_organize assign s).1.fileContents = s.fileContents ∧
    (recluster_and_organize assign s).1.fileClusters = s.fileClusters ∧
    countSafeMoves (recluster_and_organize assign s).2 = 0 := by
  obtain ⟨⟨hsk, hsub, hnd⟩, hdb, hdisk, hplaced⟩ := h
  unfold recluster_and_organize
  by_cases h1 : s.fileEmbeddings.isEmpty = true
  · rw [if_pos h1]
    have hemb : s.fileEmbeddings = [] := List.isEmpty_iff.mp h1
    have hclu : s.fileClusters = [] := by
      cases hcl : s.fileClusters with
      | nil => rfl
      | cons hd t =>
        have hsome : (lookupP hd.1 s.fileClusters).isSome := by
          rw [hcl]
          obtain ⟨k, v⟩ := hd
          simp [lookupP]
        have h2 := hsub hd.1 hsome
        rw [hemb] at h2
        simp [lookupP] at h2
    exact ⟨rfl, rfl, hclu.symm, rfl⟩
  · rw [if_neg h1]
    have hfe : s.fileEmbeddings.filter (fun kv => (lookupP kv.1 s.disk).isSome) =
        s.fileEmbeddings :=
      List.filter_eq_self.mpr (fun kv hkv => by simpa using hdisk kv hkv)
    rw [hfe]
    dsimp only
    have hfc : s.fileContents.filter
        (fun kv => (lookupP kv.1 s.fileEmbeddings).isSome) = s.fileContents := by
      refine List.filter_eq_self.mpr (fun kv hkv => ?_)
      have : (lookupP kv.1 s.fileContents).isSome :=
        (lookupP_isSome_iff_mem_keys _ _).mpr (List.mem_map_of_mem Prod.fst hkv)
      simpa using (hsk kv.1).mpr this
    have hfl : s.fileClusters.filter
        (fun kv => (lookupP kv.1 s.fileEmbeddings).isSome) = s.fileClusters := by
      refine List.filter_eq_self.mpr (fun kv hkv => ?_)
      have : (lookupP kv.1 s.fileClusters).isSome :=
        (lookupP_isSome_iff_mem_keys _ _).mpr (List.mem_map_of_mem Prod.fst hkv)
      simpa using hsub kv.1 this
    rw [hfc, hfl, if_neg h1]
    refine organize_list_noop assign _ s hnd ?_ hplaced
    intro kv hkv
    obtain ⟨kv0, hkv0, hkv0e⟩ := List.mem_map.mp hkv
    refine ⟨kv0.2, ?_, ?_⟩
    · rw [← hkv0e]
      exact entry_eq_lookup hnd hkv0
    · rw [← hkv0e]

/-- Entries of an erasure are entries of the original with a different key. -/
theorem mem_of_mem_eraseP [DecidableEq κ] {kv : κ × α} {k : κ} {l : List (κ × α)}
    (h : kv ∈ eraseP k l) : kv ∈ l ∧ kv.1 ≠ k := by
  have := List.mem_filter.mp h
  exact ⟨this.1, by simpa using this.2⟩

/-- Keys of an erasure are keys of the original. -/
theorem mem_keys_of_mem_keys_eraseP [DecidableEq κ] {q k : κ} {l : List (κ × α)}
    (h : q ∈ keysP (eraseP k l)) : q ∈ keysP l := by
  obtain ⟨kv, hkv, hkve⟩ := List.mem_map.mp h
  rw [← hkve]
  exact List.mem_map_of_mem Prod.fst (mem_of_mem_eraseP hkv).1

/-- Pruning the three maps to on-disk files preserves coherence. -/
theorem pruned_coherent (s : EngineState) (h : MapsCoherent s) :
    MapsCoherentL
      (s.fileEmbeddings.filter (fun kv => (lookupP kv.1 s.disk).isSome))
      (s.fileContents.filter (fun kv => (lookupP kv.1
        (s.fileEmbeddings.filter (fun kv => (lookupP kv.1 s.disk).isSome))).isSome))
      (s.fileClusters.filter (fun kv => (lookupP kv.1
        (s.fileEmbeddings.filter (fun kv => (lookupP kv.1 s.disk).isSome))).isSome)) := by
  obtain ⟨hsk, hsub, hnd⟩ := h
  have hfe : ∀ (q : FPath),
      lookupP q (s.fileEmbeddings.filter (fun kv => (lookupP kv.1 s.disk).isSome)) =
        if (lookupP q s.disk).isSome then lookupP q s.fileEmbeddings else none :=
    fun q => lookupP_filterKey (fun k => (lookupP k s.disk).isSome) s.fileEmbeddings q
  have hfc : ∀ (q : FPath),
      lookupP q (s.fileContents.filter (fun kv => (lookupP kv.1
          (s.fileEmbeddings.filter (fun kv => (lookupP kv.1 s.disk).isSome))).isSome)) =
        if (lookupP q (s.fileEmbeddings.filter
            (fun kv => (lookupP kv.1 s.disk).isSome))).isSome
        then lookupP q s.fileContents else none :=
    fun q => lookupP_filterKey
      (fun k => (lookupP k (s.fileEmbeddings.filter
        (fun kv => (lookupP kv.1 s.disk).isSome))).isSome) s.fileContents q
  have hfl : ∀ (q : FPath),
      lookupP q (s.fileClusters.filter (fun kv => (lookupP kv.1
          (s.fileEmbeddings.filter (fun kv => (lookupP kv.1 s.disk).isSome))).isSome)) =
        if (lookupP q (s.fileEmbeddings.filter
            (fun kv => (lookupP kv.1 s.disk).isSome))).isSome
        then lookupP q s.fileClusters else none :=
    fun q => lookupP_filterKey
      (fun k => (lookupP k (s.fileEmbeddings.filter
        (fun kv => (lookupP kv.1 s.disk).isSome))).isSome) s.fileClusters q
  refine ⟨?_, ?_, ?_⟩
  · intro q
    rw [hfe q, hfc q, hfe q]
    by_cases hdq : (lookupP q s.disk).isSome
    · simp only [if_pos hdq]
      by_cases heq : (lookupP q s.fileEmbeddings).isSome
      · simp [heq, hdq, (hsk q).mp heq]
      · have hcq : ¬ (lookupP q s.fileContents).isSome := fun hc => heq ((hsk q).mpr hc)
        simp [heq, hdq, hcq]
    · simp [hdq]
  · intro q hq
    rw [hfl q] at hq
    rw [hfe q]
    by_cases hins : (lookupP q (s.fileEmbeddings.filter
        (fun kv => (lookupP kv.1 s.disk).isSome))).isSome
    · rw [hfe q] at hins
      exact hins
    · rw [if_neg hins] at hq
      simp at hq
  · exact nodup_keys_filter _ hnd

/-- One full organize pass establishes the `Organized` invariant, provided
tracked files bear pairwise distinct basenames. -/
theorem organize_list_establishes (assign : Emb → Int × String) :
    ∀ (l : List (FPath × (Int × String))) (s : EngineState),
      MapsCoherent s →
      DistinctBasenames s.fileEmbeddings →
      (∀ kv ∈ l, ∃ v, lookupP kv.1 s.fileEmbeddings = some v ∧ assign v = kv.2) →
      (keysP l).Nodup →
      (∀ kv ∈ s.fileEmbeddings, (lookupP kv.1 s.disk).isSome) →
      (∀ kv ∈ s.fileEmbeddings, kv.1 ∈ keysP l ∨ (assign kv.2).1 = -1 ∨
        (parentNameOf kv.1 = folderNameOf (assign kv.2).1 (assign kv.2).2 ∧
         lookupP kv.1 s.fileClusters = some (assign kv.2))) →
      Organized assign (organize_list s l).1 := by
  intro l
  induction l with
  | nil =>
    intro s hco hdb hcoh hndl hdisk hpend
    refine ⟨hco, hdb, hdisk, ?_⟩
    intro kv hkv
    rcases hpend kv hkv with hmem | h'
    · simp [keysP] at hmem
    · exact h'
  | cons kv rest ih =>
    intro s hco hdb hcoh hndl hdisk hpend
    obtain ⟨v, hv, hav⟩ := hcoh kv (by simp)
    have hndk : (keysP s.fileEmbeddings).Nodup := hco.2.2
    have hndl' : (keysP rest).Nodup := by
      simp only [keysP, List.map_cons, List.nodup_cons] at hndl
      exact hndl.2
    have hheadnot : kv.1 ∉ keysP rest := by
      simp only [keysP, List.map_cons, List.nodup_cons] at hndl
      exact hndl.1
    have hmemE : (kv.1, v) ∈ s.fileEmbeddings := lookupP_mem hv
    have hvalue : ∀ kv' ∈ s.fileEmbeddings, kv'.1 = kv.1 → kv'.2 = v := by
      intro kv' hkv' he
      have hlk := entry_eq_lookup hndk hkv'
      rw [he, hv] at hlk
      exact (Option.some.inj hlk).symm
    simp only [organize_list]
    by_cases hcid : kv.2.1 = -1
    · have hone : organize_one s kv.1 kv.2.1 kv.2.2 = (s, []) := by
        simp [organize_one, hcid]
      rw [hone]
      apply ih s hco hdb (fun kv' h' => hcoh kv' (by simp [h'])) hndl' hdisk
      intro kv' hkv'
      rcases hpend kv' hkv' with hmem | h'
      · rcases (by simpa [keysP] using hmem :
            kv'.1 = kv.1 ∨ kv'.1 ∈ keysP rest) with he | hm
        · right; left
          rw [hvalue kv' hkv' he, hav]
          exact hcid
        · left; exact hm
      · right; exact h'
    · by_cases hpar : parentNameOf kv.1 = folderNameOf kv.2.1 kv.2.2
      · have hone : organize_one s kv.1 kv.2.1 kv.2.2 =
            ({ s with fileClusters := setP kv.1 (kv.2.1, kv.2.2) s.fileClusters,
                      store := update_cluster s.store kv.1 kv.2.1 kv.2.2 },
             [.storeUpdate kv.1]) := by
          simp [organize_one, hcid, hpar]
        have hcoS : MapsCoherent (organize_one s kv.1 kv.2.1 kv.2.2).1 :=
          organize_one_coherent kv.1 kv.2.1 kv.2.2 hco (by rw [hv]; rfl)
        rw [hone] at hcoS
        rw [hone]
        apply ih _ hcoS hdb (fun kv' h' => hcoh kv' (by simp [h'])) hndl' hdisk
        intro kv' hkv'
        rcases hpend kv' hkv' with hmem | h'
        · rcases (by simpa [keysP] using hmem :
              kv'.1 = kv.1 ∨ kv'.1 ∈ keysP rest) with he | hm
          · right; right
            rw [hvalue kv' hkv' he, hav, he]
            exact ⟨hpar, by rw [lookupP_setP_self]⟩
          · left; exact hm
        · rcases h' with hno | ⟨hp1, hp2⟩
          · right; left; exact hno
          · right; right
            refine ⟨hp1, ?_⟩
            by_cases he : kv.1 = kv'.1
            · rw [← he, lookupP_setP_self]
              rw [← he] at hp2
              rw [hp2] at *
              have := hvalue kv' hkv' he.symm
              rw [this, hav]
            · rw [lookupP_setP_ne he]
              exact hp2
      · -- relocation
        have h3 : kv.1 ≠ [folderNameOf kv.2.1 kv.2.2, basenameOf kv.1] := by
          intro hcon
          apply hpar
          rw [hcon]
          simp
        have hcs : (lookupP kv.1 s.fileContents).isSome :=
          (hco.1 kv.1).mp (by rw [hv]; rfl)
        obtain ⟨c, hc⟩ := Option.isSome_iff_exists.mp hcs
        obtain ⟨m, hm⟩ := Option.isSome_iff_exists.mp (hdisk (kv.1, v) hmemE)
        have htfresh :
            [folderNameOf kv.2.1 kv.2.2, basenameOf kv.1] ∉ keysP s.fileEmbeddings := by
          intro hmemT
          obtain ⟨kvT, hkvT, hkvTe⟩ := List.mem_map.mp hmemT
          have hbn : basenameOf kvT.1 = basenameOf kv.1 := by rw [hkvTe]; rfl
          have := nodup_map_inj hdb kvT hkvT (kv.1, v) hmemE hbn
          rw [this] at hkvTe
          exact h3 hkvTe
        have hfull : organize_one s kv.1 kv.2.1 kv.2.2 =
            ({ fileEmbeddings := setP [folderNameOf kv.2.1 kv.2.2, basenameOf kv.1] v
                 (eraseP kv.1 s.fileEmbeddings),
               fileContents := setP [folderNameOf kv.2.1 kv.2.2, basenameOf kv.1] c
                 (eraseP kv.1 s.fileContents),
               fileClusters := eraseP kv.1 (setP [folderNameOf kv.2.1 kv.2.2,
                 basenameOf kv.1] (kv.2.1, kv.2.2) s.fileClusters),
               store := update_cluster s.store [folderNameOf kv.2.1 kv.2.2,
                 basenameOf kv.1] kv.2.1 kv.2.2,
               disk := setP [folderNameOf kv.2.1 kv.2.2, basenameOf kv.1] m
                 (eraseP kv.1 s.disk),
               pending := kv.1 :: [folderNameOf kv.2.1 kv.2.2, basenameOf kv.1] ::
                 s.pending },
             [.storeUpdate [folderNameOf kv.2.1 kv.2.2, basenameOf kv.1],
              .chunkUpdate [folderNameOf kv.2.1 kv.2.2, basenameOf kv.1],
              .safeMoveCall kv.1 [folderNameOf kv.2.1 kv.2.2, basenameOf kv.1]]) := by
          rw [organize_one_move_eq hcid hpar h3 hv hc]
          rw [safe_move_some
            { s with
              fileEmbeddings := setP [folderNameOf kv.2.1 kv.2.2, basenameOf kv.1] v
                (eraseP kv.1 s.fileEmbeddings),
              fileContents := setP [folderNameOf kv.2.1 kv.2.2, basenameOf kv.1] c
                (eraseP kv.1 s.fileContents),
              fileClusters := eraseP kv.1 (setP [folderNameOf kv.2.1 kv.2.2,
                basenameOf kv.1] (kv.2.1, kv.2.2) s.fileClusters),
              store := update_cluster s.store [folderNameOf kv.2.1 kv.2.2,
                basenameOf kv.1] kv.2.1 kv.2.2 }
            h3 hm]
        have hcoS : MapsCoherent (organize_one s kv.1 kv.2.1 kv.2.2).1 :=
          organize_one_coherent kv.1 kv.2.1 kv.2.2 hco (by rw [hv]; rfl)
        rw [hfull] at hcoS
        rw [hfull]
        have htfreshE : [folderNameOf kv.2.1 kv.2.2, basenameOf kv.1] ∉
            keysP (eraseP kv.1 s.fileEmbeddings) :=
          fun hmem => htfresh (mem_keys_of_mem_keys_eraseP hmem)
        have happend : setP [folderNameOf kv.2.1 kv.2.2, basenameOf kv.1] v
            (eraseP kv.1 s.fileEmbeddings) =
            eraseP kv.1 s.fileEmbeddings ++
              [([folderNameOf kv.2.1 kv.2.2, basenameOf kv.1], v)] :=
          setP_fresh_append htfreshE v
        apply ih _ hcoS
        · -- distinct basenames survive the rename
          show DistinctBasenames (setP [folderNameOf kv.2.1 kv.2.2, basenameOf kv.1] v
            (eraseP kv.1 s.fileEmbeddings))
          rw [DistinctBasenames, happend, List.map_append]
          rw [List.nodup_append]
          refine ⟨List.Nodup.sublist (List.Sublist.map _ (List.filter_sublist _)) hdb,
            List.nodup_singleton _, ?_⟩
          intro b hb hbmem
          obtain ⟨kv', hkv', hkv'e⟩ := List.mem_map.mp hb
          obtain ⟨hkv'mem, hkv'ne⟩ := mem_of_mem_eraseP hkv'
          have hbn : b = basenameOf kv.1 := by
            simpa using hbmem
          rw [hbn] at hkv'e
          have := nodup_map_inj hdb kv' hkv'mem (kv.1, v) hmemE hkv'e
          exact hkv'ne (by rw [this])
        · -- iteration coherence for the remaining entries
          intro kv'' hkv''
          obtain ⟨v'', hv'', hav''⟩ := hcoh kv'' (by simp [hkv''])
          refine ⟨v'', ?_, hav''⟩
          have hne1 : kv''.1 ≠ kv.1 := by
            intro hcon
            exact hheadnot (hcon ▸ List.mem_map_of_mem Prod.fst hkv'')
          have hne2 : [folderNameOf kv.2.1 kv.2.2, basenameOf kv.1] ≠ kv''.1 := by
            intro hcon
            exact htfresh (hcon ▸ mem_keys_of_lookupP_eq_some hv'')
          show lookupP kv''.1 (setP [folderNameOf kv.2.1 kv.2.2, basenameOf kv.1] v
            (eraseP kv.1 s.fileEmbeddings)) = some v''
          rw [lookupP_setP_ne hne2, lookupP_eraseP_ne (Ne.symm hne1)]
          exact hv''
        · exact hndl'
        · -- every tracked file is still on disk
          intro kv' hkv'
          rcases mem_setP hkv' with he | hmemO
          · rw [he]
            show (lookupP [folderNameOf kv.2.1 kv.2.2, basenameOf kv.1]
              (setP [folderNameOf kv.2.1 kv.2.2, basenameOf kv.1] m
                (eraseP kv.1 s.disk))).isSome
            rw [lookupP_setP_self]
            rfl
          · obtain ⟨hkv'mem, hkv'ne⟩ := mem_of_mem_eraseP hmemO
            have hne2 : [folderNameOf kv.2.1 kv.2.2, basenameOf kv.1] ≠ kv'.1 := by
              intro hcon
              exact htfresh (hcon ▸ List.mem_map_of_mem Prod.fst hkv'mem)
            show (lookupP kv'.1 (setP [folderNameOf kv.2.1 kv.2.2, basenameOf kv.1] m
              (eraseP kv.1 s.disk))).isSome
            rw [lookupP_setP_ne hne2, lookupP_eraseP_ne (Ne.symm hkv'ne)]
            exact hdisk kv' hkv'mem
        · -- placed-or-pending for the new embedding map
          intro kv' hkv'
          rcases mem_setP hkv' with he | hmemO
          · right; right
            rw [he]
            have hav2 : assign v = (kv.2.1, kv.2.2) := by rw [hav]
            show parentNameOf [folderNameOf kv.2.1 kv.2.2, basenameOf kv.1] =
                folderNameOf (assign v).1 (assign v).2 ∧
              lookupP [folderNameOf kv.2.1 kv.2.2, basenameOf kv.1]
                (eraseP kv.1 (setP [folderNameOf kv.2.1 kv.2.2, basenameOf kv.1]
                  (kv.2.1, kv.2.2) s.fileClusters)) = some (assign v)
            rw [hav2]
            refine ⟨by simp, ?_⟩
            rw [lookupP_eraseP_ne h3, lookupP_setP_self]
          · obtain ⟨hkv'mem, hkv'ne⟩ := mem_of_mem_eraseP hmemO
            have hne2 : [folderNameOf kv.2.1 kv.2.2, basenameOf kv.1] ≠ kv'.1 := by
              intro hcon
              exact htfresh (hcon ▸ List.mem_map_of_mem Prod.fst hkv'mem)
            rcases hpend kv' hkv'mem with hmem | h'
            · rcases (by simpa [keysP] using hmem :
                  kv'.1 = kv.1 ∨ kv'.1 ∈ keysP rest) with he | hm
              · exact absurd he hkv'ne
              · left; exact hm
            · rcases h' with hno | ⟨hp1, hp2⟩
              · right; left; exact hno
              · right; right
                refine ⟨hp1, ?_⟩
                show lookupP kv'.1 (eraseP kv.1 (setP [folderNameOf kv.2.1 kv.2.2,
                  basenameOf kv.1] (kv.2.1, kv.2.2) s.fileClusters)) =
                    some (assign kv'.2)
                rw [lookupP_eraseP_ne (Ne.symm hkv'ne), lookupP_setP_ne hne2]
                exact hp2

/-- A full `recluster_and_organize` pass from any coherent state whose tracked
files bear distinct basenames lands in an `Organized` state. -/
theorem recluster_establishes (assign : Emb → Int × String) (s : EngineState)
    (hco : MapsCoherent s) (hdb : DistinctBasenames s.fileEmbeddings) :
    Organized assign (recluster_and_organize assign s).1 := by
  have hcoh1 := pruned_coherent s hco
  obtain ⟨hsk, hsub, hnd⟩ := hco
  unfold recluster_and_organize
  by_cases h1 : s.fileEmbeddings.isEmpty = true
  · rw [if_pos h1]
    have hemb : s.fileEmbeddings = [] := List.isEmpty_iff.mp h1
    refine ⟨⟨hsk, ?_, hnd⟩, hdb, ?_, ?_⟩
    · intro q hq
      have hq' : (lookupP q ([] : List (FPath × (Int × String)))).isSome := hq
      simp [lookupP] at hq'
    · intro kv hkv
      have hkv' : kv ∈ s.fileEmbeddings := hkv
      rw [hemb] at hkv'
      simp at hkv'
    · intro kv hkv
      have hkv' : kv ∈ s.fileEmbeddings := hkv
      rw [hemb] at hkv'
      simp at hkv'
  · rw [if_neg h1]
    dsimp only
    have hdbE : DistinctBasenames
        (s.fileEmbeddings.filter (fun kv => (lookupP kv.1 s.disk).isSome)) :=
      List.Nodup.sublist (List.Sublist.map _ (List.filter_sublist _)) hdb
    by_cases h2 : (s.fileEmbeddings.filter
        (fun kv => (lookupP kv.1 s.disk).isSome)).isEmpty = true
    · rw [if_pos h2]
      have hemb2 : s.fileEmbeddings.filter
          (fun kv => (lookupP kv.1 s.disk).isSome) = [] :=
        List.isEmpty_iff.mp h2
      refine ⟨hcoh1, hdbE, ?_, ?_⟩
      · intro kv hkv
        have hkv' : kv ∈ s.fileEmbeddings.filter
            (fun kv => (lookupP kv.1 s.disk).isSome) := hkv
        rw [hemb2] at hkv'
        simp at hkv'
      · intro kv hkv
        have hkv' : kv ∈ s.fileEmbeddings.filter
            (fun kv => (lookupP kv.1 s.disk).isSome) := hkv
        rw [hemb2] at hkv'
        simp at hkv'
    · rw [if_neg h2]
      have hndE : (keysP (s.fileEmbeddings.filter
          (fun kv => (lookupP kv.1 s.disk).isSome))).Nodup := nodup_keys_filter _ hnd
      refine organize_list_establishes assign _ _ hcoh1 hdbE ?_ ?_ ?_ ?_
      · intro kv hkv
        obtain ⟨kv0, hkv0, hkv0e⟩ := List.mem_map.mp hkv
        refine ⟨kv0.2, ?_, ?_⟩
        · show lookupP kv.1 (s.fileEmbeddings.filter
            (fun kv => (lookupP kv.1 s.disk).isSome)) = some kv0.2
          rw [← hkv0e]
          exact entry_eq_lookup hndE hkv0
        · rw [← hkv0e]
      · have hkeq : keysP ((s.fileEmbeddings.filter
            (fun kv => (lookupP kv.1 s.disk).isSome)).map
              (fun kv => (kv.1, assign kv.2))) =
            keysP (s.fileEmbeddings.filter
              (fun kv => (lookupP kv.1 s.disk).isSome)) := by
          simp [keysP, List.map_map]
        rw [hkeq]
        exact hndE
      · intro kv hkv
        have hkv' : kv ∈ s.fileEmbeddings.filter
            (fun kv => (lookupP kv.1 s.disk).isSome) := hkv
        have := (List.mem_filter.mp hkv').2
        simpa using this
      · intro kv hkv
        left
        have hkv' : kv ∈ s.fileEmbeddings.filter
            (fun kv => (lookupP kv.1 s.disk).isSome) := hkv
        show kv.1 ∈ keysP ((s.fileEmbeddings.filter
            (fun kv => (lookupP kv.1 s.disk).isSome)).map
              (fun kv => (kv.1, assign kv.2)))
        exact List.mem_map_of_mem Prod.fst
          (List.mem_map_of_mem (fun kv => (kv.1, assign kv.2)) hkv')

/-- C1 (counterexample): the organizer is not idempotent as stated.  Ingesting
the batch `[x/f.txt, A_0/f.txt]` (two files sharing a basename) and running
the full `recluster_and_organize` pass leaves a state from which a second
immediate pass still issues a `safe_move` call: organizing `x/f.txt` into
`A_0/` silently overwrites the map entries of `A_0/f.txt`, the survivor is
then moved to `B_1/`, and the second pass wants it back in `A_0/`. -/
theorem C1_counterexample :
    countSafeMoves (recluster_and_organize assignC1
      (process_files_batch exC1 emC1 assignC1 stateC1
        [["x", "f.txt"], ["A_0", "f.txt"]]).1).2 = 1 := by
  decide

/-- C1 (amended): on any coherent state whose tracked files bear pairwise
distinct basenames — in particular any post-batch state without basename
collisions — an immediate second `recluster_and_organize` pass issues no
`safe_move` call and leaves `file_embeddings`, `file_contents` and
`file_clusters` unchanged. -/
theorem C1_amended_idempotent (assign : Emb → Int × String) (s : EngineState)
    (hco : MapsCoherent s) (hdb : DistinctBasenames s.fileEmbeddings) :
    countSafeMoves (recluster_and_organize assign
      (recluster_and_organize assign s).1).2 = 0 ∧
    (recluster_and_organize assign
      (recluster_and_organize assign s).1).1.fileEmbeddings =
        (recluster_and_organize assign s).1.fileEmbeddings ∧
    (recluster_and_organize assign
      (recluster_and_organize assign s).1).1.fileContents =
        (recluster_and_organize assign s).1.fileContents ∧
    (recluster_and_organize assign
      (recluster_and_organize assign s).1).1.fileClusters =
        (recluster_and_organize assign s).1.fileClusters := by
  have horg := recluster_establishes assign s hco hdb
  have h := recluster_noop_of_organized assign (recluster_and_organize assign s).1 horg
  exact ⟨h.2.2.2, h.1, h.2.1, h.2.2.1⟩

/-- Witness for the amended idempotence theorem: a single tracked file already
sitting in its cluster folder. -/
theorem C1_amended_idempotent_witness :
    (MapsCoherent stateW1 ∧ DistinctBasenames stateW1.fileEmbeddings) ∧
    (countSafeMoves (recluster_and_organize (fun _ => (0, "A"))
      (recluster_and_organize (fun _ => (0, "A")) stateW1).1).2 = 0 ∧
     (recluster_and_organize (fun _ => (0, "A"))
      (recluster_and_organize (fun _ => (0, "A")) stateW1).1).1.fileEmbeddings =
        (recluster_and_organize (fun _ => (0, "A")) stateW1).1.fileEmbeddings ∧
     (recluster_and_organize (fun _ => (0, "A"))
      (recluster_and_organize (fun _ => (0, "A")) stateW1).1).1.fileContents =
        (recluster_and_organize (fun _ => (0, "A")) stateW1).1.fileContents ∧
     (recluster_and_organize (fun _ => (0, "A"))
      (recluster_and_organize (fun _ => (0, "A")) stateW1).1).1.fileClusters =
        (recluster_and_organize (fun _ => (0, "A")) stateW1).1.fileClusters) :=
  have hco : MapsCoherent stateW1 :=
    ⟨fun k => by simp only [stateW1, lookupP]; split <;> simp,
     fun k hk => by simp [stateW1, lookupP] at hk,
     by decide⟩
  have hdb : DistinctBasenames stateW1.fileEmbeddings := by
    show (stateW1.fileEmbeddings.map (fun kv => basenameOf kv.1)).Nodup
    decide
  ⟨⟨hco, hdb⟩, C1_amended_idempotent (fun _ => (0, "A")) stateW1 hco hdb⟩

end SEFS
